import Mathlib

/-!
Verification of the structural three-way merge engine of
`tool/kicad_auto_merge_3way.py`.

The document text is modelled as `List Char` (a Python `str` is a sequence of
code points).  Python's whitespace tests (`str.isspace`, regex `\s`) are
modelled by the six ASCII whitespace characters; the documents handled by the
tool are ASCII.  Machine-independent `Nat` arithmetic with explicit `% 2 ^ 32`
models the 32-bit words of SHA-1.
-/

set_option maxRecDepth 10000

/-- Whitespace test used by `str.isspace()` and the regex class `\s`
(ASCII fragment). -/
def pyIsSpace (c : Char) : Bool :=
  c == ' ' || c == '\t' || c == '\n' || c == '\r' || c == '\x0b' || c == '\x0c'

/-- Python `str.rstrip()`: remove trailing whitespace. -/
def pyRstrip (l : List Char) : List Char :=
  (l.reverse.dropWhile pyIsSpace).reverse

/-- Python `str.strip()`: remove leading and trailing whitespace. -/
def pyStrip (l : List Char) : List Char :=
  ((l.dropWhile pyIsSpace).reverse.dropWhile pyIsSpace).reverse

/-- Python `s[a:b]` for `a ≤ b` (as used by the scanner with in-bounds indices). -/
def pySlice (s : List Char) (a b : Nat) : List Char :=
  (s.drop a).take (b - a)

/-- Separator-join, Python `sep.join(xs)`. -/
def joinSep (sep : List Char) : List (List Char) → List Char
  | [] => []
  | [x] => x
  | x :: y :: tl => x ++ sep ++ joinSep sep (y :: tl)

/-- Python `str.splitlines()` (for the line terminators `\r\n`, `\n`, `\r`):
split into lines, no trailing empty line for a trailing terminator. -/
def splitLinesGo : List Char → List Char → List (List Char)
  | acc, [] => [acc.reverse]
  | acc, '\r' :: '\n' :: tl => acc.reverse :: (if tl.isEmpty then [] else splitLinesGo [] tl)
  | acc, '\n' :: tl => acc.reverse :: (if tl.isEmpty then [] else splitLinesGo [] tl)
  | acc, '\r' :: tl => acc.reverse :: (if tl.isEmpty then [] else splitLinesGo [] tl)
  | acc, c :: tl => splitLinesGo (c :: acc) tl

def splitLines (l : List Char) : List (List Char) :=
  if l.isEmpty then [] else splitLinesGo [] l

/-- First-occurrence deduplication (the key order of a Python `dict`):
`seen` holds the keys already emitted. -/
def dedupFirstGo {α : Type} [DecidableEq α] (seen : List α) : List α → List α
  | [] => []
  | x :: tl => if x ∈ seen then dedupFirstGo seen tl else x :: dedupFirstGo (x :: seen) tl

def dedupFirst {α : Type} [DecidableEq α] (l : List α) : List α :=
  dedupFirstGo [] l

/-- Lookup in an insertion-ordered association list with the overwrite
semantics of a Python `dict`: entries later in the list shadow earlier ones. -/
def dictLookup {α β : Type} [DecidableEq α] : List (α × β) → α → Option β
  | [], _ => none
  | (k', v) :: tl, k =>
    match dictLookup tl k with
    | some v' => some v'
    | none => if k' = k then some v else none

/-! ### SHA-1 (`hashlib.sha1(...).hexdigest()`), over `Nat` with explicit `% 2 ^ 32` -/

/-- UTF-8 encoding of one code point (Python `str.encode("utf-8")`). -/
def utf8Char (c : Char) : List Nat :=
  let n := c.toNat
  if n < 128 then [n]
  else if n < 2048 then [192 + n / 64, 128 + n % 64]
  else if n < 65536 then [224 + n / 4096, 128 + n / 64 % 64, 128 + n % 64]
  else [240 + n / 262144, 128 + n / 4096 % 64, 128 + n / 64 % 64, 128 + n % 64]

def utf8Bytes (l : List Char) : List Nat :=
  (l.map utf8Char).flatten

/-- Rotate a 32-bit word left by `k` (for `1 ≤ k ≤ 31`). -/
def rotl32 (x k : Nat) : Nat :=
  ((x % 2 ^ 32) * 2 ^ k) % 2 ^ 32 + (x % 2 ^ 32) / 2 ^ (32 - k)

/-- Big-endian 8-byte encoding of the bit length. -/
def be64 (n : Nat) : List Nat :=
  [n / 2 ^ 56 % 256, n / 2 ^ 48 % 256, n / 2 ^ 40 % 256, n / 2 ^ 32 % 256,
   n / 2 ^ 24 % 256, n / 2 ^ 16 % 256, n / 2 ^ 8 % 256, n % 256]

/-- Big-endian 32-bit words of a 64-byte chunk. -/
def sha1Words : List Nat → List Nat
  | b0 :: b1 :: b2 :: b3 :: rest =>
    (b0 * 2 ^ 24 + b1 * 2 ^ 16 + b2 * 2 ^ 8 + b3) :: sha1Words rest
  | _ => []

/-- Extend the 16 chunk words to 80 schedule words; `rev` holds the words
produced so far, newest first. -/
def sha1Extend (rev : List Nat) : Nat → List Nat
  | 0 => rev.reverse
  | n + 1 =>
    sha1Extend
      (rotl32 (((rev.getD 2 0 ^^^ rev.getD 7 0) ^^^ rev.getD 13 0) ^^^ rev.getD 15 0) 1 :: rev) n

def sha1F (i b c d : Nat) : Nat :=
  if i < 20 then (b &&& c) ||| ((b ^^^ 4294967295) &&& d)
  else if i < 40 then (b ^^^ c) ^^^ d
  else if i < 60 then ((b &&& c) ||| (b &&& d)) ||| (c &&& d)
  else (b ^^^ c) ^^^ d

def sha1K (i : Nat) : Nat :=
  if i < 20 then 0x5A827999
  else if i < 40 then 0x6ED9EBA1
  else if i < 60 then 0x8F1BBCDC
  else 0xCA62C1D6

def sha1Round (st : Nat × Nat × Nat × Nat × Nat) (iw : Nat × Nat) : Nat × Nat × Nat × Nat × Nat :=
  let (a, b, c, d, e) := st
  let temp := (rotl32 a 5 + sha1F iw.1 b c d + e + sha1K iw.1 + iw.2) % 2 ^ 32
  (temp, a, rotl32 b 30, c, d)

def sha1Chunk (h : Nat × Nat × Nat × Nat × Nat) (chunk : List Nat) : Nat × Nat × Nat × Nat × Nat :=
  let ws := sha1Extend (sha1Words chunk).reverse 64
  let (h0, h1, h2, h3, h4) := h
  let (a, b, c, d, e) := ws.enum.foldl sha1Round (h0, h1, h2, h3, h4)
  ((h0 + a) % 2 ^ 32, (h1 + b) % 2 ^ 32, (h2 + c) % 2 ^ 32, (h3 + d) % 2 ^ 32, (h4 + e) % 2 ^ 32)

/-- Split into 64-byte chunks; the fuel is an upper bound on the number of
chunks (`l.length` always suffices, each step consumes 64 bytes). -/
def chunks64 : Nat → List Nat → List (List Nat)
  | 0, _ => []
  | _ + 1, [] => []
  | fuel + 1, l => l.take 64 :: chunks64 fuel (l.drop 64)

/-- Concatenation of the five hash words into the 160-bit digest value. -/
def sha1Comb (hs : Nat × Nat × Nat × Nat × Nat) : Nat :=
  ((((hs.1 % 2 ^ 32) * 2 ^ 32 + hs.2.1 % 2 ^ 32) * 2 ^ 32 + hs.2.2.1 % 2 ^ 32) * 2 ^ 32
      + hs.2.2.2.1 % 2 ^ 32) * 2 ^ 32
    + hs.2.2.2.2 % 2 ^ 32

def sha1Pad (bytes : List Nat) : List Nat :=
  bytes ++ 128 :: List.replicate ((119 - bytes.length % 64) % 64) 0 ++ be64 (8 * bytes.length)

def sha1Nat (bytes : List Nat) : Nat :=
  sha1Comb ((chunks64 (sha1Pad bytes).length (sha1Pad bytes)).foldl sha1Chunk
    (0x67452301, 0xEFCDAB89, 0x98BADCFE, 0x10325476, 0xC3D2E1F0))

def hexChar (d : Nat) : Char :=
  "0123456789abcdef".data.getD d '0'

/-- Fixed-width lowercase hex rendering, most significant digit first. -/
def toHexFixed : Nat → Nat → List Char
  | 0, _ => []
  | d + 1, n => toHexFixed d (n / 16) ++ [hexChar (n % 16)]

/-- Python `hashlib.sha1(bytes).hexdigest()`: 40 lowercase hex characters. -/
def sha1Hex (bytes : List Nat) : List Char :=
  toHexFixed 40 (sha1Nat bytes)

/-! ### Identity resolver: the regex `\(uuid\s+([0-9a-fA-F-]{8,})\)` -/

/-- Character class `[0-9a-fA-F-]` of the uuid token. -/
def isUuidChar (c : Char) : Bool :=
  c.isDigit || ('a' ≤ c && c ≤ 'f') || ('A' ≤ c && c ≤ 'F') || c == '-'

/-- Match of the regex `\(uuid\s+([0-9a-fA-F-]{8,})\)` anchored at the start of
`l`, returning the captured token.  The greedy runs need no backtracking: a
shortened `\s+` run would put a whitespace character where the token class is
required, and a shortened token run would put a token-class character where
`\)` is required. -/
def uuidMatchAt (l : List Char) : Option (List Char) :=
  if l.take 5 = "(uuid".data then
    let r := l.drop 5
    let sp := r.takeWhile pyIsSpace
    let r2 := r.dropWhile pyIsSpace
    let tok := r2.takeWhile isUuidChar
    let r3 := r2.dropWhile isUuidChar
    if sp ≠ [] ∧ 8 ≤ tok.length ∧ r3.head? = some ')' then some tok else none
  else none

/-- Python `re.search`: leftmost match of the uuid pattern. -/
def findUuidTok : List Char → Option (List Char)
  | [] => none
  | c :: tl =>
    match uuidMatchAt (c :: tl) with
    | some t => some t
    | none => findUuidTok tl

/-- Declarative reading of one uuid-field occurrence anchored at the start of
`l`: a parenthesized `uuid` tag, at least one whitespace character, a
hex/hyphen token of at least 8 characters, then a closing parenthesis. -/
def uuidFieldAt (l tok : List Char) : Prop :=
  ∃ sp rest, l = "(uuid".data ++ sp ++ tok ++ ')' :: rest ∧ sp ≠ [] ∧
    (∀ c ∈ sp, pyIsSpace c = true) ∧ 8 ≤ tok.length ∧ (∀ c ∈ tok, isUuidChar c = true)

/-- Identity of a block: captured uuid token lowercased when the pattern
matches, otherwise the SHA-1 hex digest of the UTF-8 bytes of the raw text. -/
def resolveId (blk : List Char) : List Char :=
  match findUuidTok blk with
  | some tok => tok.map Char.toLower
  | none => sha1Hex (utf8Bytes blk)

/-! ### Block scanner (`parse_top_blocks` / `find_blocks_with_pos`) -/

/-- Offset of the first `'('` in `l` (Python `s.find('(', start)` relative to
`start`). -/
def findOpenOff : List Char → Option Nat
  | [] => none
  | c :: tl => if c = '(' then some 0 else (findOpenOff tl).map (· + 1)

/-- Python `s.find('(', pos)`, `none` for `-1`. -/
def findOpen (s : List Char) (pos : Nat) : Option Nat :=
  (findOpenOff (s.drop pos)).map (· + pos)

/-- Head keyword after an opening parenthesis (`read_head`): skip whitespace,
then the run of alphanumeric/underscore/hyphen characters. -/
def isHeadChar (c : Char) : Bool :=
  c.isAlphanum || c == '_' || c == '-'

def readHeadFrom (l : List Char) : List Char :=
  (l.dropWhile pyIsSpace).takeWhile isHeadChar

/-- Number of characters of `l` consumed through the parenthesis closing depth
`depth`, with the string-literal and escape modes of `match_paren`;
`none` when the input ends first (unbalanced input or unterminated string). -/
def matchParenOff : List Char → Int → Bool → Bool → Option Nat
  | [], _, _, _ => none
  | c :: tl, depth, instr, esc =>
    if instr then
      if esc then (matchParenOff tl depth instr false).map (· + 1)
      else if c = '\\' then (matchParenOff tl depth instr true).map (· + 1)
      else if c = '"' then (matchParenOff tl depth false esc).map (· + 1)
      else (matchParenOff tl depth instr esc).map (· + 1)
    else
      if c = '"' then (matchParenOff tl depth true esc).map (· + 1)
      else if c = '(' then (matchParenOff tl (depth + 1) instr esc).map (· + 1)
      else if c = ')' then
        if depth - 1 = 0 then some 1 else (matchParenOff tl (depth - 1) instr esc).map (· + 1)
      else (matchParenOff tl depth instr esc).map (· + 1)

/-- Python `match_paren(start)`: index one past the matching `')'`. -/
def matchParen (s : List Char) (pos : Nat) : Option Nat :=
  (matchParenOff (s.drop pos) 0 false false).map (· + pos)

def HEAD_TOKENS : List (List Char) :=
  ["symbol".data, "wire".data, "junction".data, "no_connect".data, "label".data,
   "global_label".data, "hierarchical_label".data, "sheet".data, "bus".data,
   "bus_entry".data, "polyline".data, "text".data, "image".data, "group".data,
   "note".data, "dimension".data]

/-- One recognized top-level block with its byte span (`find_blocks_with_pos`
entry `(head, uid, pos, end, block)`). -/
structure PosBlock where
  head : List Char
  uid : List Char
  start : Nat
  endPos : Nat
  blk : List Char
  deriving DecidableEq, Repr

/-- Main scanning loop.  The fuel only bounds the iteration count:
`s.length + 1` always suffices because the position strictly increases and an
iteration requires an opening parenthesis inside the text
(`scanAux_fuel_irrelevant`). -/
def scanAux (s : List Char) : Nat → Nat → List PosBlock
  | 0, _ => []
  | fuel + 1, pos =>
    match findOpen s pos with
    | none => []
    | some p =>
      match matchParen s p with
      | none => []
      | some e =>
        let head := readHeadFrom (s.drop (p + 1))
        let b := pySlice s p e
        if head ∈ HEAD_TOKENS then
          { head := head, uid := resolveId b, start := p, endPos := e, blk := b } ::
            scanAux s fuel e
        else scanAux s fuel e

def findBlocksWithPos (s : List Char) : List PosBlock :=
  scanAux s (s.length + 1) 0

/-- Failure observer of the same loop: the position of the opening parenthesis
at which `match_paren` returned `None` and scanning stopped, if any. -/
def scanFailAux (s : List Char) : Nat → Nat → Option Nat
  | 0, _ => none
  | fuel + 1, pos =>
    match findOpen s pos with
    | none => none
    | some p =>
      match matchParen s p with
      | none => some p
      | some e => scanFailAux s fuel e

def scanFail (s : List Char) : Option Nat :=
  scanFailAux s (s.length + 1) 0

/-- Python `parse_top_blocks(text)`: `[]` for a null document, else the
`(head, uid, block)` triples of the recognized top-level blocks. -/
def parse_top_blocks (txt : Option (List Char)) : List (List Char × List Char × List Char) :=
  match txt with
  | none => []
  | some s => (findBlocksWithPos s).map (fun b => (b.head, b.uid, b.blk))

/-- ObjectKey: (head keyword, identity). -/
abbrev ObjKey := List Char × List Char

/-- Snapshot index of one document version: the insertion-ordered association
list behind `{(h,u): blk for (h,u,blk) in parse_top_blocks(txt)}`. -/
def snapshotOf (txt : Option (List Char)) : List (ObjKey × List Char) :=
  (parse_top_blocks txt).map (fun t => ((t.1, t.2.1), t.2.2))

/-! ### Document rebuilder (`rebuild_from`) -/

/-- Skeleton substituted for an absent mainline document. -/
def skeletonText : List Char :=
  "(kicad_sch (version 20211014) (generator merged)\n)".data

def baseOf (baseText : Option (List Char)) : List Char :=
  baseText.getD skeletonText

/-- One iteration of the rebuild loop: state is (output chunks, `last`,
`present_keys`). -/
def rebuildStep (s : List Char) (keep : List ObjKey) (repl : ObjKey → Option (List Char))
    (acc : List (List Char) × Nat × List ObjKey) (b : PosBlock) :
    List (List Char) × Nat × List ObjKey :=
  let (out, last, present) := acc
  let key : ObjKey := (b.head, b.uid)
  if key ∈ keep then
    (out ++ [pySlice s last b.start, (repl key).getD b.blk], b.endPos, present ++ [key])
  else
    (out ++ [pySlice s last b.start], b.endPos, present)

def rebuildFold (baseText : Option (List Char)) (keep : List ObjKey)
    (repl : ObjKey → Option (List Char)) : List (List Char) × Nat × List ObjKey :=
  (findBlocksWithPos (baseOf baseText)).foldl
    (rebuildStep (baseOf baseText) keep repl) ([], 0, [])

/-- The `"".join(out)` value before `rstrip`, with the trailing `s[last:]`. -/
def rebuildJoined (baseText : Option (List Char)) (keep : List ObjKey)
    (repl : ObjKey → Option (List Char)) : List Char :=
  ((rebuildFold baseText keep repl).1 ++ [(baseOf baseText).drop (rebuildFold baseText keep repl).2.1]).flatten

def presentKeysOf (baseText : Option (List Char)) (keep : List ObjKey)
    (repl : ObjKey → Option (List Char)) : List ObjKey :=
  (rebuildFold baseText keep repl).2.2

/-- The orphan blocks `[replace_map[k] for k in keep_map if k not in present_keys]`;
`filterMap` models the lookup, which in the merge pipeline is defined for every
kept key. -/
def missingOf (baseText : Option (List Char)) (keep : List ObjKey)
    (repl : ObjKey → Option (List Char)) : List (List Char) :=
  (keep.filter (fun k => decide (k ∉ presentKeysOf baseText keep repl))).filterMap repl

/-- Python `rebuild_from(base_text, keep_map, replace_map)`. -/
def rebuild_from (baseText : Option (List Char)) (keep : List ObjKey)
    (repl : ObjKey → Option (List Char)) : List Char :=
  let merged := pyRstrip (rebuildJoined baseText keep repl)
  let missing := missingOf baseText keep repl
  if missing.isEmpty then merged
  else
    (if merged.getLast? = some ')' then merged.dropLast else merged) ++
      '\n' :: (joinSep "\n\n".data missing ++ "\n)".data)

/-! ### Three-way reconciler (`merge_kicad_3way`) -/

def chooseOverlap (mode : String) (b h : List Char) : List Char :=
  if mode = "prefer-head" then h else b

/-- Per-key decision of the classification chain, on the lookups in
(M, B, H): `none` is drop, `some blk` is keep with resolved content `blk`. -/
def decideKey (mode : String) (allowDeletions : Bool) :
    Option (List Char) → Option (List Char) → Option (List Char) → Option (List Char)
  | none, some b, none => some b
  | none, none, some h => some h
  | some _, some b, none => if allowDeletions then none else some b
  | some _, none, some h => some h
  | some _, some b, some h => some (chooseOverlap mode b h)
  | none, some b, some h => some (chooseOverlap mode b h)
  | _, _, _ => none

/-- Union of the key sets of the three snapshots, modelled as the
first-occurrence-ordered list (set iteration order is not observable in any
claim). -/
def unionKeysOf (M B H : List (ObjKey × List Char)) : List ObjKey :=
  dedupFirst (dedupFirst (M.map Prod.fst) ++ dedupFirst (B.map Prod.fst) ++
    dedupFirst (H.map Prod.fst))

def mergeKeepKeys (mtxt btxt htxt : Option (List Char)) (mode : String)
    (allowDeletions : Bool) : List ObjKey :=
  let M := snapshotOf mtxt
  let B := snapshotOf btxt
  let H := snapshotOf htxt
  (unionKeysOf M B H).filter (fun k =>
    (decideKey mode allowDeletions (dictLookup M k) (dictLookup B k) (dictLookup H k)).isSome)

def mergeReplaceMap (mtxt btxt htxt : Option (List Char)) (mode : String)
    (allowDeletions : Bool) : ObjKey → Option (List Char) := fun k =>
  let M := snapshotOf mtxt
  let B := snapshotOf btxt
  let H := snapshotOf htxt
  if k ∈ unionKeysOf M B H then
    decideKey mode allowDeletions (dictLookup M k) (dictLookup B k) (dictLookup H k)
  else none

/-- Python `merge_kicad_3way` on the three fetched texts. -/
def merge_kicad_3way (mtxt btxt htxt : Option (List Char)) (mode : String)
    (allowDeletions : Bool) : List Char :=
  rebuild_from btxt (mergeKeepKeys mtxt btxt htxt mode allowDeletions)
    (mergeReplaceMap mtxt btxt htxt mode allowDeletions)

/-! ### fp-info-cache union merger -/

/-- Character class `[A-Za-z0-9_:\-\.]` of `is_category_line`. -/
def isIdentChar (c : Char) : Bool :=
  c.isAlpha || c.isDigit || c == '_' || c == ':' || c == '-' || c == '.'

/-- Python `is_category_line(line)`. -/
def is_category_line (line : List Char) : Bool :=
  let s := pyStrip line
  if s.isEmpty then false
  else if s.contains ' ' then false
  else if (s.map Char.toLower).take 4 = "http".data then false
  else if s.all Char.isDigit then false
  else s.all isIdentChar

/-- Inner loop of `parse_info_blocks`: first `j' ≥ j` with
`j' ≥ lines.length - 1` or a two-consecutive-header-candidate at `j'`.
Fuel `lines.length` suffices (the position increases by one per step and stays
below `lines.length - 1`). -/
def findRecEnd (lines : List (List Char)) : Nat → Nat → Nat
  | 0, j => j
  | fuel + 1, j =>
    if j < lines.length - 1 then
      if is_category_line (lines.getD j []) && is_category_line (lines.getD (j + 1) []) then j
      else findRecEnd lines fuel (j + 1)
    else j

/-- Outer loop of `parse_info_blocks`; fuel `lines.length + 1` suffices (the
position strictly increases). -/
def parseInfoAux (lines : List (List Char)) :
    Nat → Nat → List ((List Char × List Char) × List (List Char))
  | 0, _ => []
  | fuel + 1, i =>
    if i < lines.length - 1 then
      if is_category_line (lines.getD i []) && is_category_line (lines.getD (i + 1) []) then
        let j := findRecEnd lines lines.length (i + 2)
        ((pyStrip (lines.getD i []), pyStrip (lines.getD (i + 1) [])),
          (lines.drop i).take (j - i)) :: parseInfoAux lines fuel j
      else parseInfoAux lines fuel (i + 1)
    else []

/-- Python `parse_info_blocks(text)`. -/
def parse_info_blocks (txt : Option (List Char)) :
    List ((List Char × List Char) × List (List Char)) :=
  match txt with
  | none => []
  | some t =>
    let lines := splitLines t
    parseInfoAux lines (lines.length + 1) 0

/-- One step of `add_blocks`: state is (`order`, `out`); `out` is the
insertion-ordered association list of a Python `dict` (appending a pair
overwrites under `dictLookup`). -/
def addRecord (st : List (List Char × List Char) × List ((List Char × List Char) × List (List Char)))
    (r : (List Char × List Char) × List (List Char)) :
    List (List Char × List Char) × List ((List Char × List Char) × List (List Char)) :=
  let (order, store) := st
  ((if (dictLookup store r.1).isSome then order else order ++ [r.1]), store ++ [r])

/-- Python `merge_fp_info_3way` on the three fetched texts (`git_show ... or ""`). -/
def merge_fp_info_3way (mtxt btxt htxt : Option (List Char)) : List Char :=
  let recs := parse_info_blocks (some (mtxt.getD [])) ++
    parse_info_blocks (some (btxt.getD [])) ++ parse_info_blocks (some (htxt.getD []))
  let st := recs.foldl addRecord ([], [])
  let mergedLines := st.1.foldl (fun acc k => acc ++ (dictLookup st.2 k).getD []) []
  joinSep "\n".data mergedLines ++ "\n".data

/-! ### Association-list and deduplication lemmas -/

theorem mem_dedupFirstGo {α : Type} [DecidableEq α] (x : α) :
    ∀ (l seen : List α), x ∈ dedupFirstGo seen l ↔ x ∈ l ∧ x ∉ seen := by
  intro l
  induction l with
  | nil => intro seen; simp [dedupFirstGo]
  | cons a tl ih =>
    intro seen
    by_cases ha : a ∈ seen
    · rw [dedupFirstGo, if_pos ha, ih]
      constructor
      · rintro ⟨h1, h2⟩; exact ⟨List.mem_cons_of_mem _ h1, h2⟩
      · rintro ⟨h1, h2⟩
        rcases List.mem_cons.mp h1 with rfl | h3
        · exact absurd ha h2
        · exact ⟨h3, h2⟩
    · rw [dedupFirstGo, if_neg ha]
      constructor
      · intro hmem
        rcases List.mem_cons.mp hmem with rfl | h1
        · exact ⟨List.mem_cons_self _ _, ha⟩
        · obtain ⟨h2, h3⟩ := (ih (a :: seen)).mp h1
          exact ⟨List.mem_cons_of_mem _ h2, fun hx => h3 (List.mem_cons_of_mem _ hx)⟩
      · rintro ⟨h1, h2⟩
        rcases List.mem_cons.mp h1 with rfl | h3
        · exact List.mem_cons_self _ _
        · by_cases hxa : x = a
          · subst hxa; exact List.mem_cons_self _ _
          · refine List.mem_cons_of_mem _ ((ih (a :: seen)).mpr ⟨h3, ?_⟩)
            intro hx
            rcases List.mem_cons.mp hx with h4 | h4
            · exact hxa h4
            · exact h2 h4

theorem mem_dedupFirst {α : Type} [DecidableEq α] (x : α) (l : List α) :
    x ∈ dedupFirst l ↔ x ∈ l := by
  simp [dedupFirst, mem_dedupFirstGo]

theorem dedupFirstGo_congr {α : Type} [DecidableEq α] :
    ∀ (l s1 s2 : List α), (∀ x, x ∈ s1 ↔ x ∈ s2) → dedupFirstGo s1 l = dedupFirstGo s2 l := by
  intro l
  induction l with
  | nil => intro s1 s2 _; rfl
  | cons a tl ih =>
    intro s1 s2 hs
    by_cases ha : a ∈ s1
    · rw [dedupFirstGo, if_pos ha, dedupFirstGo, if_pos ((hs a).mp ha), ih _ _ hs]
    · rw [dedupFirstGo, if_neg ha, dedupFirstGo, if_neg (fun h => ha ((hs a).mpr h))]
      congr 1
      refine ih _ _ (fun x => ?_)
      simp only [List.mem_cons, hs x]

theorem dedupFirstGo_eq_nil {α : Type} [DecidableEq α] :
    ∀ (l seen : List α), (∀ x ∈ l, x ∈ seen) → dedupFirstGo seen l = [] := by
  intro l
  induction l with
  | nil => intro seen _; rfl
  | cons a tl ih =>
    intro seen h
    rw [dedupFirstGo, if_pos (h a (List.mem_cons_self a tl))]
    exact ih seen (fun x hx => h x (List.mem_cons_of_mem _ hx))

theorem dedupFirstGo_append_absorb {α : Type} [DecidableEq α] :
    ∀ (l m seen : List α), (∀ x ∈ m, x ∈ l ∨ x ∈ seen) →
      dedupFirstGo seen (l ++ m) = dedupFirstGo seen l := by
  intro l
  induction l with
  | nil =>
    intro m seen h
    rw [List.nil_append, dedupFirstGo]
    exact dedupFirstGo_eq_nil m seen (fun x hx => (h x hx).resolve_left (by simp))
  | cons a tl ih =>
    intro m seen h
    by_cases ha : a ∈ seen
    · rw [List.cons_append, dedupFirstGo, if_pos ha, dedupFirstGo, if_pos ha]
      refine ih m seen (fun x hx => ?_)
      rcases h x hx with h1 | h1
      · rcases List.mem_cons.mp h1 with rfl | h2
        · exact Or.inr ha
        · exact Or.inl h2
      · exact Or.inr h1
    · rw [List.cons_append, dedupFirstGo, if_neg ha, dedupFirstGo, if_neg ha]
      congr 1
      refine ih m (a :: seen) (fun x hx => ?_)
      rcases h x hx with h1 | h1
      · rcases List.mem_cons.mp h1 with rfl | h2
        · exact Or.inr (List.mem_cons_self _ _)
        · exact Or.inl h2
      · exact Or.inr (List.mem_cons_of_mem _ h1)

theorem dedupFirstGo_eq_self {α : Type} [DecidableEq α] :
    ∀ (l seen : List α), l.Nodup → (∀ x ∈ l, x ∉ seen) → dedupFirstGo seen l = l := by
  intro l
  induction l with
  | nil => intro seen _ _; rfl
  | cons a tl ih =>
    intro seen hnd h
    rw [dedupFirstGo, if_neg (h a (List.mem_cons_self a tl))]
    congr 1
    refine ih (a :: seen) (List.Nodup.of_cons hnd) (fun x hx => ?_)
    intro hmem
    rcases List.mem_cons.mp hmem with rfl | h2
    · exact (List.nodup_cons.mp hnd).1 hx
    · exact h x (List.mem_cons_of_mem _ hx) h2

theorem dedupFirst_eq_self {α : Type} [DecidableEq α] (l : List α) (h : l.Nodup) :
    dedupFirst l = l :=
  dedupFirstGo_eq_self l [] h (by simp)

theorem dictLookup_isSome_iff {α β : Type} [DecidableEq α] (k : α) :
    ∀ l : List (α × β), (dictLookup l k).isSome ↔ k ∈ l.map Prod.fst := by
  intro l
  induction l with
  | nil => simp [dictLookup]
  | cons p tl ih =>
    rw [dictLookup]
    rcases hp : dictLookup tl k with _ | v
    · rw [hp] at ih
      by_cases hk : p.1 = k
      · simp [hk, if_pos hk]
      · simp only [if_neg hk, List.map_cons, List.mem_cons]
        simp only [Option.isSome_none, Bool.false_eq_true, false_iff] at ih ⊢
        rintro (h | h)
        · exact hk h.symm
        · exact ih h
    · rw [hp] at ih
      simp only [Option.isSome_some, true_iff] at ih ⊢
      exact List.mem_cons_of_mem _ ih

theorem dictLookup_eq_some_of_nodup {α β : Type} [DecidableEq α] (k : α) (v : β) :
    ∀ l : List (α × β), (l.map Prod.fst).Nodup → (k, v) ∈ l → dictLookup l k = some v := by
  intro l
  induction l with
  | nil => intro _ h; simp at h
  | cons p tl ih =>
    intro hnd hmem
    rw [List.map_cons, List.nodup_cons] at hnd
    rw [dictLookup]
    rcases List.mem_cons.mp hmem with rfl | h2
    · have : dictLookup tl k = none := by
        rcases hlk : dictLookup tl k with _ | w
        · rfl
        · exact absurd ((dictLookup_isSome_iff k tl).mp (by simp [hlk])) hnd.1
      simp [this]
    · rw [ih hnd.2 h2]

theorem dictLookup_append {α β : Type} [DecidableEq α] (k : α) :
    ∀ l1 l2 : List (α × β), dictLookup (l1 ++ l2) k =
      match dictLookup l2 k with
      | some v => some v
      | none => dictLookup l1 k := by
  intro l1 l2
  induction l1 with
  | nil =>
    rw [List.nil_append]
    rcases h : dictLookup l2 k with _ | v <;> simp [dictLookup, h]
  | cons p tl ih =>
    rw [List.cons_append, dictLookup, ih, dictLookup]
    rcases h : dictLookup l2 k with _ | v
    · rfl
    · rfl

/-! ### Scanner lemmas -/

theorem findOpenOff_lt : ∀ (l : List Char) (i : Nat), findOpenOff l = some i → i < l.length := by
  intro l
  induction l with
  | nil => intro i h; simp [findOpenOff] at h
  | cons c tl ih =>
    intro i h
    rw [findOpenOff] at h
    split_ifs at h
    · injection h with h'
      simp only [List.length_cons]
      omega
    · rcases Option.map_eq_some'.mp h with ⟨i', hi', rfl⟩
      have := ih i' hi'
      simp only [List.length_cons]
      omega

theorem findOpen_bounds (s : List Char) (pos p : Nat) (h : findOpen s pos = some p) :
    pos ≤ p ∧ p < s.length := by
  rcases Option.map_eq_some'.mp h with ⟨i, hi, rfl⟩
  have hlt := findOpenOff_lt _ _ hi
  rw [List.length_drop] at hlt
  omega

theorem matchParenOff_bounds :
    ∀ (l : List Char) (d : Int) (i e : Bool) (r : Nat),
      matchParenOff l d i e = some r → 1 ≤ r ∧ r ≤ l.length := by
  intro l
  induction l with
  | nil => intro d i e r h; simp [matchParenOff] at h
  | cons c tl ih =>
    intro d i e r h
    rw [matchParenOff] at h
    split_ifs at h <;>
      first
        | (rcases Option.map_eq_some'.mp h with ⟨r', hr', rfl⟩
           have := ih _ _ _ _ hr'
           simp only [List.length_cons]
           omega)
        | (injection h with h'
           simp only [List.length_cons]
           omega)

theorem matchParen_bounds (s : List Char) (pos e : Nat) (h : matchParen s pos = some e) :
    pos < e ∧ e ≤ s.length := by
  rcases Option.map_eq_some'.mp h with ⟨r, hr, rfl⟩
  have := matchParenOff_bounds _ _ _ _ _ hr
  rw [List.length_drop] at this
  omega

/-- Chained well-formedness of the scanned block list: blocks are in order,
non-overlapping, in bounds, and each block text is the corresponding slice. -/
def segChain (s : List Char) : Nat → List PosBlock → Prop
  | _, [] => True
  | last, b :: tl =>
    last ≤ b.start ∧ b.start < b.endPos ∧ b.endPos ≤ s.length ∧
      b.blk = pySlice s b.start b.endPos ∧ segChain s b.endPos tl

theorem segChain_mono (s : List Char) (pos pos' : Nat) (bl : List PosBlock)
    (hle : pos ≤ pos') (h : segChain s pos' bl) : segChain s pos bl := by
  cases bl with
  | nil => trivial
  | cons b tl =>
    obtain ⟨h1, h2⟩ := h
    exact ⟨le_trans hle h1, h2⟩

theorem scanAux_segChain (s : List Char) :
    ∀ (fuel pos : Nat), segChain s pos (scanAux s fuel pos) := by
  intro fuel
  induction fuel with
  | zero => intro pos; trivial
  | succ fuel ih =>
    intro pos
    rw [scanAux]
    rcases hfo : findOpen s pos with _ | p
    · exact trivial
    · dsimp only
      obtain ⟨hp1, hp2⟩ := findOpen_bounds s pos p hfo
      rcases hmp : matchParen s p with _ | e
      · exact trivial
      · dsimp only
        obtain ⟨he1, he2⟩ := matchParen_bounds s p e hmp
        split_ifs
        · exact ⟨hp1, he1, he2, rfl, ih e⟩
        · exact segChain_mono s pos e _ (le_trans hp1 (le_of_lt he1)) (ih e)

theorem scanFailAux_ge (s : List Char) :
    ∀ (fuel pos p : Nat), scanFailAux s fuel pos = some p → pos ≤ p := by
  intro fuel
  induction fuel with
  | zero => intro pos p h; simp [scanFailAux] at h
  | succ fuel ih =>
    intro pos p h
    rw [scanFailAux] at h
    rcases hfo : findOpen s pos with _ | q
    · rw [hfo] at h
      dsimp only at h
      exact Option.noConfusion h
    · rw [hfo] at h
      dsimp only at h
      obtain ⟨hq1, _⟩ := findOpen_bounds s pos q hfo
      rcases hmp : matchParen s q with _ | e
      · rw [hmp] at h
        dsimp only at h
        injection h with h'
        omega
      · rw [hmp] at h
        dsimp only at h
        obtain ⟨he1, _⟩ := matchParen_bounds s q e hmp
        have := ih e p h
        omega

theorem scanAux_endPos_le_fail (s : List Char) :
    ∀ (fuel pos p : Nat), scanFailAux s fuel pos = some p →
      ∀ b ∈ scanAux s fuel pos, b.endPos ≤ p := by
  intro fuel
  induction fuel with
  | zero => intro pos p _ b hb; simp [scanAux] at hb
  | succ fuel ih =>
    intro pos p h b hb
    rw [scanFailAux] at h
    rw [scanAux] at hb
    rcases hfo : findOpen s pos with _ | q
    · rw [hfo] at hb
      dsimp only at hb
      exact absurd hb (List.not_mem_nil b)
    · rw [hfo] at h hb
      dsimp only at h hb
      rcases hmp : matchParen s q with _ | e
      · rw [hmp] at hb
        dsimp only at hb
        exact absurd hb (List.not_mem_nil b)
      · rw [hmp] at h hb
        dsimp only at h hb
        have hep : e ≤ p := scanFailAux_ge s fuel e p h
        split_ifs at hb
        · rcases List.mem_cons.mp hb with rfl | hb'
          · exact hep
          · exact ih e p h b hb'
        · exact ih e p h b hb

/-! ### Rebuild-fold lemmas -/

theorem pySlice_append_drop (s : List Char) (a b : Nat) (hab : a ≤ b) :
    pySlice s a b ++ s.drop b = s.drop a := by
  have : s.drop b = (s.drop a).drop (b - a) := by
    rw [List.drop_drop]
    congr 1
    omega
  rw [pySlice, this, List.take_append_drop]

theorem foldl_rebuildStep_id (s : List Char) (keep : List ObjKey)
    (repl : ObjKey → Option (List Char)) :
    ∀ (bl : List PosBlock) (out0 : List (List Char)) (last0 : Nat) (pres0 : List ObjKey),
      segChain s last0 bl →
      (∀ b ∈ bl, ((b.head, b.uid) ∈ keep) ∧ (repl (b.head, b.uid)).getD b.blk = b.blk) →
      ((bl.foldl (rebuildStep s keep repl) (out0, last0, pres0)).1.flatten ++
          s.drop (bl.foldl (rebuildStep s keep repl) (out0, last0, pres0)).2.1 =
        out0.flatten ++ s.drop last0) := by
  intro bl
  induction bl with
  | nil => intro out0 last0 pres0 _ _; rfl
  | cons b tl ih =>
    intro out0 last0 pres0 hseg hall
    obtain ⟨hs1, hs2, hs3, hs4, hs5⟩ := hseg
    obtain ⟨hk, hrepl⟩ := hall b (List.mem_cons_self _ _)
    rw [List.foldl_cons, rebuildStep]
    simp only [if_pos hk, hrepl]
    rw [ih (out0 ++ [pySlice s last0 b.start, b.blk]) b.endPos (pres0 ++ [(b.head, b.uid)]) hs5
      (fun b' hb' => hall b' (List.mem_cons_of_mem _ hb'))]
    rw [List.flatten_append]
    simp only [List.flatten_cons, List.flatten_nil, List.append_nil, List.append_assoc]
    rw [hs4, pySlice_append_drop s b.start b.endPos (le_of_lt hs2),
      pySlice_append_drop s last0 b.start hs1]

theorem foldl_rebuildStep_present (s : List Char) (keep : List ObjKey)
    (repl : ObjKey → Option (List Char)) :
    ∀ (bl : List PosBlock) (out0 : List (List Char)) (last0 : Nat) (pres0 : List ObjKey),
      (bl.foldl (rebuildStep s keep repl) (out0, last0, pres0)).2.2 =
        pres0 ++ (bl.map (fun b => (b.head, b.uid))).filter (fun k => decide (k ∈ keep)) := by
  intro bl
  induction bl with
  | nil => intro out0 last0 pres0; simp
  | cons b tl ih =>
    intro out0 last0 pres0
    rw [List.foldl_cons, rebuildStep]
    by_cases hk : (b.head, b.uid) ∈ keep
    · simp only [if_pos hk]
      rw [ih]
      simp [hk]
    · simp only [if_neg hk]
      rw [ih]
      simp [hk]

theorem foldl_rebuildStep_last_le (s : List Char) (keep : List ObjKey)
    (repl : ObjKey → Option (List Char)) (p : Nat) :
    ∀ (bl : List PosBlock) (out0 : List (List Char)) (last0 : Nat) (pres0 : List ObjKey),
      last0 ≤ p → (∀ b ∈ bl, b.endPos ≤ p) →
      (bl.foldl (rebuildStep s keep repl) (out0, last0, pres0)).2.1 ≤ p := by
  intro bl
  induction bl with
  | nil => intro out0 last0 pres0 h _; exact h
  | cons b tl ih =>
    intro out0 last0 pres0 _ hall
    rw [List.foldl_cons, rebuildStep]
    have hb := hall b (List.mem_cons_self _ _)
    have htl := fun b' hb' => hall b' (List.mem_cons_of_mem _ hb')
    by_cases hk : (b.head, b.uid) ∈ keep
    · simp only [if_pos hk]
      exact ih _ _ _ hb htl
    · simp only [if_neg hk]
      exact ih _ _ _ hb htl

theorem rebuildJoined_eq (baseText : Option (List Char)) (keep : List ObjKey)
    (repl : ObjKey → Option (List Char)) :
    rebuildJoined baseText keep repl =
      (rebuildFold baseText keep repl).1.flatten ++
        (baseOf baseText).drop (rebuildFold baseText keep repl).2.1 := by
  rw [rebuildJoined, List.flatten_append]
  simp [List.flatten_cons]

/-! ### Identity-resolver lemmas -/

theorem pyIsSpace_cases (c : Char) (h : pyIsSpace c = true) :
    c = ' ' ∨ c = '\t' ∨ c = '\n' ∨ c = '\r' ∨ c = '\x0b' ∨ c = '\x0c' := by
  simp only [pyIsSpace, Bool.or_eq_true, beq_iff_eq] at h
  tauto

theorem isUuidChar_not_space (c : Char) (h : isUuidChar c = true) : pyIsSpace c = false := by
  rcases hsp : pyIsSpace c with _ | _
  · rfl
  · rcases pyIsSpace_cases c hsp with rfl | rfl | rfl | rfl | rfl | rfl <;>
      exact absurd h (by decide)

theorem isUuidChar_not_rparen (c : Char) (h : isUuidChar c = true) : c ≠ ')' := by
  rintro rfl
  exact absurd h (by decide)

theorem takeWhile_append_all (p : Char → Bool) :
    ∀ (l1 l2 : List Char), (∀ c ∈ l1, p c = true) →
      (∀ c, l2.head? = some c → p c = false) → (l1 ++ l2).takeWhile p = l1 := by
  intro l1
  induction l1 with
  | nil =>
    intro l2 _ h2
    cases l2 with
    | nil => rfl
    | cons c tl =>
      rw [List.nil_append, List.takeWhile_cons, h2 c rfl]
      simp
  | cons a tl ih =>
    intro l2 h1 h2
    rw [List.cons_append, List.takeWhile_cons, h1 a (List.mem_cons_self _ _),
      ih l2 (fun c hc => h1 c (List.mem_cons_of_mem _ hc)) h2]
    simp

theorem dropWhile_append_all (p : Char → Bool) :
    ∀ (l1 l2 : List Char), (∀ c ∈ l1, p c = true) →
      (∀ c, l2.head? = some c → p c = false) → (l1 ++ l2).dropWhile p = l2 := by
  intro l1
  induction l1 with
  | nil =>
    intro l2 _ h2
    cases l2 with
    | nil => rfl
    | cons c tl =>
      rw [List.nil_append, List.dropWhile_cons, h2 c rfl]
      simp
  | cons a tl ih =>
    intro l2 h1 h2
    rw [List.cons_append, List.dropWhile_cons, h1 a (List.mem_cons_self _ _)]
    simp only [if_true]
    exact ih l2 (fun c hc => h1 c (List.mem_cons_of_mem _ hc)) h2

theorem mem_takeWhile_pred (p : Char → Bool) :
    ∀ (l : List Char) (c : Char), c ∈ l.takeWhile p → p c = true := by
  intro l
  induction l with
  | nil => intro c h; simp [List.takeWhile] at h
  | cons a tl ih =>
    intro c h
    rw [List.takeWhile_cons] at h
    rcases ha : p a with _ | _
    · rw [ha] at h; simp at h
    · rw [ha] at h
      simp only [if_true] at h
      rcases List.mem_cons.mp h with rfl | h2
      · exact ha
      · exact ih c h2

theorem uuidMatchAt_sound (l tok : List Char) (h : uuidMatchAt l = some tok) :
    uuidFieldAt l tok := by
  rw [uuidMatchAt] at h
  by_cases h5 : l.take 5 = "(uuid".data
  · rw [if_pos h5] at h
    dsimp only at h
    split_ifs at h with hcond
    · injection h with htok
      obtain ⟨hsp, hlen, hr3⟩ := hcond
      obtain ⟨t, ht⟩ : ∃ t, ((l.drop 5).dropWhile pyIsSpace).dropWhile isUuidChar = ')' :: t := by
        rcases hc : ((l.drop 5).dropWhile pyIsSpace).dropWhile isUuidChar with _ | ⟨a, t⟩
        · rw [hc] at hr3; simp at hr3
        · rw [hc] at hr3
          simp only [List.head?_cons, Option.some.injEq] at hr3
          exact ⟨t, by rw [hr3]⟩
      refine ⟨(l.drop 5).takeWhile pyIsSpace, t, ?_, hsp, ?_, ?_, ?_⟩
      · have e1 : l.drop 5 =
            (l.drop 5).takeWhile pyIsSpace ++ (l.drop 5).dropWhile pyIsSpace :=
          (List.takeWhile_append_dropWhile pyIsSpace (l.drop 5)).symm
        have e2 : (l.drop 5).dropWhile pyIsSpace = tok ++ ')' :: t := by
          rw [← htok, ← ht]
          exact (List.takeWhile_append_dropWhile isUuidChar ((l.drop 5).dropWhile pyIsSpace)).symm
        calc l = l.take 5 ++ l.drop 5 := (List.take_append_drop 5 l).symm
        _ = "(uuid".data ++ ((l.drop 5).takeWhile pyIsSpace ++ (tok ++ ')' :: t)) := by
            rw [h5, ← e2, ← e1]
        _ = "(uuid".data ++ (l.drop 5).takeWhile pyIsSpace ++ tok ++ ')' :: t := by
            simp [List.append_assoc]
      · exact fun c hc => mem_takeWhile_pred pyIsSpace _ c hc
      · exact htok ▸ hlen
      · intro c hc
        rw [← htok] at hc
        exact mem_takeWhile_pred isUuidChar _ c hc
  · rw [if_neg h5] at h
    exact absurd h (by simp)

theorem uuidMatchAt_complete (l tok : List Char) (h : uuidFieldAt l tok) :
    uuidMatchAt l = some tok := by
  obtain ⟨sp, rest, heq, hsp, hspAll, hlen, htokAll⟩ := h
  have heq' : l = "(uuid".data ++ (sp ++ (tok ++ ')' :: rest)) := by
    rw [heq]; simp [List.append_assoc]
  have htokne : tok ≠ [] := by
    intro hnil
    rw [hnil] at hlen
    simp at hlen
  have htokhead : ∀ c, (tok ++ ')' :: rest).head? = some c → pyIsSpace c = false := by
    intro c hc
    cases tok with
    | nil => exact absurd rfl htokne
    | cons a t =>
      simp only [List.cons_append, List.head?_cons, Option.some.injEq] at hc
      rw [← hc]
      exact isUuidChar_not_space a (htokAll a (List.mem_cons_self _ _))
  have hrparen : ∀ c, (')' :: rest).head? = some c → isUuidChar c = false := by
    intro c hc
    simp only [List.head?_cons, Option.some.injEq] at hc
    rw [← hc]
    decide
  have hlen5 : ("(uuid".data : List Char).length = 5 := by decide
  have htake5 : l.take 5 = "(uuid".data := by
    rw [heq', ← hlen5, List.take_left]
  have hdrop5 : l.drop 5 = sp ++ (tok ++ ')' :: rest) := by
    rw [heq', ← hlen5, List.drop_left]
  rw [uuidMatchAt, if_pos htake5]
  dsimp only
  rw [hdrop5,
    takeWhile_append_all pyIsSpace sp (tok ++ ')' :: rest) hspAll htokhead,
    dropWhile_append_all pyIsSpace sp (tok ++ ')' :: rest) hspAll htokhead,
    takeWhile_append_all isUuidChar tok (')' :: rest) htokAll hrparen,
    dropWhile_append_all isUuidChar tok (')' :: rest) htokAll hrparen]
  rw [if_pos ⟨hsp, hlen, rfl⟩]

theorem findUuidTok_sound :
    ∀ (b tok : List Char), findUuidTok b = some tok →
      ∃ i, uuidFieldAt (b.drop i) tok ∧ ∀ j t', j < i → ¬ uuidFieldAt (b.drop j) t' := by
  intro b
  induction b with
  | nil => intro tok h; simp [findUuidTok] at h
  | cons c tl ih =>
    intro tok h
    rw [findUuidTok] at h
    rcases hm : uuidMatchAt (c :: tl) with _ | t <;> rw [hm] at h
    · obtain ⟨i, hf, hleft⟩ := ih tok h
      refine ⟨i + 1, by rw [List.drop_succ_cons]; exact hf, ?_⟩
      intro j t' hj
      cases j with
      | zero =>
        intro hfield
        rw [List.drop_zero] at hfield
        exact absurd (uuidMatchAt_complete _ _ hfield) (by rw [hm]; simp)
      | succ j' =>
        rw [List.drop_succ_cons]
        exact hleft j' t' (by omega)
    · injection h with h'
      subst h'
      exact ⟨0, by rw [List.drop_zero]; exact uuidMatchAt_sound _ _ hm, fun j t' hj => by omega⟩

theorem findUuidTok_complete :
    ∀ (b : List Char) (i : Nat) (tok : List Char), uuidFieldAt (b.drop i) tok →
      (findUuidTok b).isSome := by
  intro b
  induction b with
  | nil =>
    intro i tok h
    obtain ⟨sp, rest, heq, _⟩ := h
    rw [List.drop_nil] at heq
    have hL := congrArg List.length heq
    have h5 : ("(uuid".data : List Char).length = 5 := by decide
    simp only [List.length_nil, List.length_append, List.length_cons, h5] at hL
    omega
  | cons c tl ih =>
    intro i tok h
    rw [findUuidTok]
    rcases hm : uuidMatchAt (c :: tl) with _ | t
    · cases i with
      | zero =>
        rw [List.drop_zero] at h
        exact absurd (uuidMatchAt_complete _ _ h) (by rw [hm]; simp)
      | succ i' =>
        rw [List.drop_succ_cons] at h
        exact ih i' tok h
    · simp

theorem uuidFieldAt_has_paren (l : List Char) (i : Nat) (t : List Char)
    (h : uuidFieldAt (l.drop i) t) : '(' ∈ l := by
  obtain ⟨sp, rest, heq, _⟩ := h
  have h0 : '(' ∈ ("(uuid".data : List Char) := by decide
  have hmem : '(' ∈ l.drop i := by
    rw [heq]
    exact List.mem_append_left _ (List.mem_append_left _ (List.mem_append_left _ h0))
  exact (List.drop_suffix i l).subset hmem

/-! ### SHA-1 digest bound -/

theorem combIneq {a b A B : Nat} (hb : b < B) (ha : a < A) : a * B + b < A * B := by
  calc a * B + b < a * B + B := by omega
  _ = (a + 1) * B := by ring
  _ ≤ A * B := Nat.mul_le_mul_right B ha

theorem sha1Comb_lt (hs : Nat × Nat × Nat × Nat × Nat) : sha1Comb hs < 2 ^ 160 := by
  rw [sha1Comb]
  have m32 : (0 : Nat) < 2 ^ 32 := by positivity
  have h0 := Nat.mod_lt hs.1 m32
  have h1 := Nat.mod_lt hs.2.1 m32
  have h2 := Nat.mod_lt hs.2.2.1 m32
  have h3 := Nat.mod_lt hs.2.2.2.1 m32
  have h4 := Nat.mod_lt hs.2.2.2.2 m32
  have s1 : (hs.1 % 2 ^ 32) * 2 ^ 32 + hs.2.1 % 2 ^ 32 < 2 ^ 64 := by
    have := combIneq h1 h0
    calc (hs.1 % 2 ^ 32) * 2 ^ 32 + hs.2.1 % 2 ^ 32 < 2 ^ 32 * 2 ^ 32 := this
    _ = 2 ^ 64 := by norm_num
  have s2 : ((hs.1 % 2 ^ 32) * 2 ^ 32 + hs.2.1 % 2 ^ 32) * 2 ^ 32 + hs.2.2.1 % 2 ^ 32 < 2 ^ 96 := by
    have := combIneq h2 s1
    calc _ < 2 ^ 64 * 2 ^ 32 := this
    _ = (2 : Nat) ^ 96 := by norm_num
  have s3 : (((hs.1 % 2 ^ 32) * 2 ^ 32 + hs.2.1 % 2 ^ 32) * 2 ^ 32 + hs.2.2.1 % 2 ^ 32) * 2 ^ 32
      + hs.2.2.2.1 % 2 ^ 32 < 2 ^ 128 := by
    have := combIneq h3 s2
    calc _ < 2 ^ 96 * 2 ^ 32 := this
    _ = (2 : Nat) ^ 128 := by norm_num
  have := combIneq h4 s3
  calc _ < 2 ^ 128 * 2 ^ 32 := this
  _ = (2 : Nat) ^ 160 := by norm_num

theorem sha1Nat_lt (bytes : List Nat) : sha1Nat bytes < 2 ^ 160 := by
  rw [sha1Nat]
  exact sha1Comb_lt _

/-! ### Merge-pipeline lemmas -/

theorem mem_unionKeysOf (k : ObjKey) (M B H : List (ObjKey × List Char)) :
    k ∈ unionKeysOf M B H ↔
      k ∈ M.map Prod.fst ∨ k ∈ B.map Prod.fst ∨ k ∈ H.map Prod.fst := by
  simp [unionKeysOf, mem_dedupFirst, List.mem_append]

theorem mergeKeepKeys_mem (mtxt btxt htxt : Option (List Char)) (mode : String) (ad : Bool)
    (k : ObjKey) :
    k ∈ mergeKeepKeys mtxt btxt htxt mode ad ↔
      k ∈ unionKeysOf (snapshotOf mtxt) (snapshotOf btxt) (snapshotOf htxt) ∧
      (decideKey mode ad (dictLookup (snapshotOf mtxt) k) (dictLookup (snapshotOf btxt) k)
        (dictLookup (snapshotOf htxt) k)).isSome = true := by
  rw [mergeKeepKeys]
  exact List.mem_filter

theorem mergeReplaceMap_eq (mtxt btxt htxt : Option (List Char)) (mode : String) (ad : Bool)
    (k : ObjKey)
    (hk : k ∈ unionKeysOf (snapshotOf mtxt) (snapshotOf btxt) (snapshotOf htxt)) :
    mergeReplaceMap mtxt btxt htxt mode ad k =
      decideKey mode ad (dictLookup (snapshotOf mtxt) k) (dictLookup (snapshotOf btxt) k)
        (dictLookup (snapshotOf htxt) k) := by
  rw [mergeReplaceMap]
  rw [if_pos hk]

theorem mem_keys_of_lookup {t : Option (List Char)} {k : ObjKey} {v : List Char}
    (h : dictLookup (snapshotOf t) k = some v) : k ∈ (snapshotOf t).map Prod.fst :=
  (dictLookup_isSome_iff k (snapshotOf t)).mp (by rw [h]; rfl)

/-! ### Claim theorems -/

/-- C7: a revision at which the document is absent yields the empty snapshot
rather than an error (parsing a null document yields no blocks), and an absent
mainline document is replaced by the fixed minimal skeleton
`"(kicad_sch (version 20211014) (generator merged)"` + newline + `")"` before
the keep set is applied. -/
theorem C7_absent_document (k : ObjKey) (keep : List ObjKey)
    (repl : ObjKey → Option (List Char)) :
    parse_top_blocks none = [] ∧
    dictLookup (snapshotOf none) k = none ∧
    baseOf none = skeletonText ∧
    skeletonText = "(kicad_sch (version 20211014) (generator merged)".data ++ '\n' :: ")".data ∧
    rebuild_from none keep repl = rebuild_from (some skeletonText) keep repl :=
  ⟨rfl, rfl, rfl, by decide, rfl⟩

/-- C2: a key absent from the ancestor snapshot but present in the mainline or
proposed snapshot is always kept, for every overlap mode and both
allow-deletions settings. -/
theorem C2_no_silent_drop (mtxt btxt htxt : Option (List Char)) (mode : String)
    (allowDeletions : Bool) (k : ObjKey)
    (hM : dictLookup (snapshotOf mtxt) k = none)
    (hBH : dictLookup (snapshotOf btxt) k ≠ none ∨ dictLookup (snapshotOf htxt) k ≠ none) :
    k ∈ mergeKeepKeys mtxt btxt htxt mode allowDeletions := by
  rw [mergeKeepKeys_mem]
  constructor
  · rw [mem_unionKeysOf]
    rcases hBH with h | h
    · exact Or.inr (Or.inl ((dictLookup_isSome_iff k _).mp (Option.isSome_iff_ne_none.mpr h)))
    · exact Or.inr (Or.inr ((dictLookup_isSome_iff k _).mp (Option.isSome_iff_ne_none.mpr h)))
  · rw [hM]
    rcases hB : dictLookup (snapshotOf btxt) k with _ | b <;>
      rcases hH : dictLookup (snapshotOf htxt) k with _ | hv
    · rcases hBH with h | h
      · exact absurd hB h
      · exact absurd hH h
    · simp [decideKey]
    · simp [decideKey]
    · simp [decideKey]

/-- C2 witness: a wire block present only on the mainline side is kept. -/
theorem C2_witness :
    dictLookup (snapshotOf none) ("wire".data, "aaaabbbb".data) = none ∧
    dictLookup (snapshotOf (some "(wire (uuid aaaabbbb) 1)".data))
      ("wire".data, "aaaabbbb".data) ≠ none ∧
    ("wire".data, "aaaabbbb".data) ∈
      mergeKeepKeys none (some "(wire (uuid aaaabbbb) 1)".data) none "prefer-head" false :=
  ⟨by decide, by decide,
    C2_no_silent_drop none (some "(wire (uuid aaaabbbb) 1)".data) none "prefer-head" false
      ("wire".data, "aaaabbbb".data) (by decide) (Or.inl (by decide))⟩

/-- C1: the reconciler's decision for every key in the union of the three
parsed snapshots follows the classification table: FTF keeps B's block, FFT
keeps H's block, TTF drops exactly when allow-deletions and otherwise keeps
B's block, TFT keeps H's block, TTT and FTT keep the block chosen by the
overlap mode (prefer-head takes H's, prefer-base takes B's), TFF drops. -/
theorem C1_classification_table (mtxt btxt htxt : Option (List Char)) (mode : String)
    (ad : Bool) (k : ObjKey) :
    (∀ b, dictLookup (snapshotOf mtxt) k = none → dictLookup (snapshotOf btxt) k = some b →
      dictLookup (snapshotOf htxt) k = none →
      k ∈ mergeKeepKeys mtxt btxt htxt mode ad ∧
        mergeReplaceMap mtxt btxt htxt mode ad k = some b) ∧
    (∀ h, dictLookup (snapshotOf mtxt) k = none → dictLookup (snapshotOf btxt) k = none →
      dictLookup (snapshotOf htxt) k = some h →
      k ∈ mergeKeepKeys mtxt btxt htxt mode ad ∧
        mergeReplaceMap mtxt btxt htxt mode ad k = some h) ∧
    (∀ m b, dictLookup (snapshotOf mtxt) k = some m → dictLookup (snapshotOf btxt) k = some b →
      dictLookup (snapshotOf htxt) k = none →
      (ad = true → k ∉ mergeKeepKeys mtxt btxt htxt mode ad) ∧
      (ad = false → k ∈ mergeKeepKeys mtxt btxt htxt mode ad ∧
        mergeReplaceMap mtxt btxt htxt mode ad k = some b)) ∧
    (∀ m h, dictLookup (snapshotOf mtxt) k = some m → dictLookup (snapshotOf btxt) k = none →
      dictLookup (snapshotOf htxt) k = some h →
      k ∈ mergeKeepKeys mtxt btxt htxt mode ad ∧
        mergeReplaceMap mtxt btxt htxt mode ad k = some h) ∧
    (∀ m b h, dictLookup (snapshotOf mtxt) k = some m →
      dictLookup (snapshotOf btxt) k = some b → dictLookup (snapshotOf htxt) k = some h →
      k ∈ mergeKeepKeys mtxt btxt htxt mode ad ∧
      (mode = "prefer-head" → mergeReplaceMap mtxt btxt htxt mode ad k = some h) ∧
      (mode = "prefer-base" → mergeReplaceMap mtxt btxt htxt mode ad k = some b)) ∧
    (∀ b h, dictLookup (snapshotOf mtxt) k = none → dictLookup (snapshotOf btxt) k = some b →
      dictLookup (snapshotOf htxt) k = some h →
      k ∈ mergeKeepKeys mtxt btxt htxt mode ad ∧
      (mode = "prefer-head" → mergeReplaceMap mtxt btxt htxt mode ad k = some h) ∧
      (mode = "prefer-base" → mergeReplaceMap mtxt btxt htxt mode ad k = some b)) ∧
    (∀ m, dictLookup (snapshotOf mtxt) k = some m → dictLookup (snapshotOf btxt) k = none →
      dictLookup (snapshotOf htxt) k = none →
      k ∉ mergeKeepKeys mtxt btxt htxt mode ad) := by
  refine ⟨?_, ?_, ?_, ?_, ?_, ?_, ?_⟩
  · intro b hM hB hH
    have hu : k ∈ unionKeysOf (snapshotOf mtxt) (snapshotOf btxt) (snapshotOf htxt) :=
      (mem_unionKeysOf k _ _ _).mpr (Or.inr (Or.inl (mem_keys_of_lookup hB)))
    refine ⟨(mergeKeepKeys_mem _ _ _ _ _ _).mpr ⟨hu, ?_⟩, ?_⟩
    · rw [hM, hB, hH]; rfl
    · rw [mergeReplaceMap_eq _ _ _ _ _ _ hu, hM, hB, hH]
      rfl
  · intro h hM hB hH
    have hu : k ∈ unionKeysOf (snapshotOf mtxt) (snapshotOf btxt) (snapshotOf htxt) :=
      (mem_unionKeysOf k _ _ _).mpr (Or.inr (Or.inr (mem_keys_of_lookup hH)))
    refine ⟨(mergeKeepKeys_mem _ _ _ _ _ _).mpr ⟨hu, ?_⟩, ?_⟩
    · rw [hM, hB, hH]; rfl
    · rw [mergeReplaceMap_eq _ _ _ _ _ _ hu, hM, hB, hH]
      rfl
  · intro m b hM hB hH
    have hu : k ∈ unionKeysOf (snapshotOf mtxt) (snapshotOf btxt) (snapshotOf htxt) :=
      (mem_unionKeysOf k _ _ _).mpr (Or.inl (mem_keys_of_lookup hM))
    constructor
    · intro had hk
      obtain ⟨_, hs⟩ := (mergeKeepKeys_mem _ _ _ _ _ _).mp hk
      rw [hM, hB, hH] at hs
      simp [decideKey, had] at hs
    · intro had
      refine ⟨(mergeKeepKeys_mem _ _ _ _ _ _).mpr ⟨hu, ?_⟩, ?_⟩
      · rw [hM, hB, hH]; simp [decideKey, had]
      · rw [mergeReplaceMap_eq _ _ _ _ _ _ hu, hM, hB, hH]
        simp [decideKey, had]
  · intro m h hM hB hH
    have hu : k ∈ unionKeysOf (snapshotOf mtxt) (snapshotOf btxt) (snapshotOf htxt) :=
      (mem_unionKeysOf k _ _ _).mpr (Or.inl (mem_keys_of_lookup hM))
    refine ⟨(mergeKeepKeys_mem _ _ _ _ _ _).mpr ⟨hu, ?_⟩, ?_⟩
    · rw [hM, hB, hH]; rfl
    · rw [mergeReplaceMap_eq _ _ _ _ _ _ hu, hM, hB, hH]
      rfl
  · intro m b h hM hB hH
    have hu : k ∈ unionKeysOf (snapshotOf mtxt) (snapshotOf btxt) (snapshotOf htxt) :=
      (mem_unionKeysOf k _ _ _).mpr (Or.inl (mem_keys_of_lookup hM))
    refine ⟨(mergeKeepKeys_mem _ _ _ _ _ _).mpr ⟨hu, ?_⟩, ?_, ?_⟩
    · rw [hM, hB, hH]; rfl
    · intro hmode
      rw [mergeReplaceMap_eq _ _ _ _ _ _ hu, hM, hB, hH]
      simp [decideKey, chooseOverlap, hmode]
    · intro hmode
      rw [mergeReplaceMap_eq _ _ _ _ _ _ hu, hM, hB, hH]
      rw [hmode]
      simp [decideKey, chooseOverlap]
  · intro b h hM hB hH
    have hu : k ∈ unionKeysOf (snapshotOf mtxt) (snapshotOf btxt) (snapshotOf htxt) :=
      (mem_unionKeysOf k _ _ _).mpr (Or.inr (Or.inl (mem_keys_of_lookup hB)))
    refine ⟨(mergeKeepKeys_mem _ _ _ _ _ _).mpr ⟨hu, ?_⟩, ?_, ?_⟩
    · rw [hM, hB, hH]; rfl
    · intro hmode
      rw [mergeReplaceMap_eq _ _ _ _ _ _ hu, hM, hB, hH]
      simp [decideKey, chooseOverlap, hmode]
    · intro hmode
      rw [mergeReplaceMap_eq _ _ _ _ _ _ hu, hM, hB, hH]
      rw [hmode]
      simp [decideKey, chooseOverlap]
  · intro m hM hB hH hk
    obtain ⟨_, hs⟩ := (mergeKeepKeys_mem _ _ _ _ _ _).mp hk
    rw [hM, hB, hH] at hs
    simp [decideKey] at hs

/-- C1 witness: the FTF row at a concrete wire block present only on mainline. -/
theorem C1_witness :
    dictLookup (snapshotOf none) ("wire".data, "aaaabbbb".data) = none ∧
    dictLookup (snapshotOf (some "(wire (uuid aaaabbbb) 1)".data))
      ("wire".data, "aaaabbbb".data) = some "(wire (uuid aaaabbbb) 1)".data ∧
    (("wire".data, "aaaabbbb".data) ∈
      mergeKeepKeys none (some "(wire (uuid aaaabbbb) 1)".data) none "prefer-head" false ∧
      mergeReplaceMap none (some "(wire (uuid aaaabbbb) 1)".data) none "prefer-head" false
        ("wire".data, "aaaabbbb".data) = some "(wire (uuid aaaabbbb) 1)".data) :=
  ⟨by decide, by decide,
    (C1_classification_table none (some "(wire (uuid aaaabbbb) 1)".data) none "prefer-head"
      false ("wire".data, "aaaabbbb".data)).1 "(wire (uuid aaaabbbb) 1)".data (by decide)
      (by decide) (by decide)⟩

/-! ### fp-info-cache lemmas -/

theorem parseInfoAux_header (lines : List (List Char)) :
    ∀ (fuel i : Nat) (cat fpn : List Char) (ls : List (List Char)),
      ((cat, fpn), ls) ∈ parseInfoAux lines fuel i →
      ∃ i', is_category_line (lines.getD i' []) = true ∧
        is_category_line (lines.getD (i' + 1) []) = true ∧
        cat = pyStrip (lines.getD i' []) ∧ fpn = pyStrip (lines.getD (i' + 1) []) := by
  intro fuel
  induction fuel with
  | zero => intro i cat fpn ls h; simp [parseInfoAux] at h
  | succ fuel ih =>
    intro i cat fpn ls h
    rw [parseInfoAux] at h
    split_ifs at h with h1 h2
    · dsimp only at h
      rcases List.mem_cons.mp h with heq | hmem
      · rw [Bool.and_eq_true] at h2
        obtain ⟨hb1, hb2⟩ := h2
        refine ⟨i, hb1, hb2, ?_, ?_⟩
        · exact congrArg (fun q => q.1.1) heq
        · exact congrArg (fun q => q.1.2) heq
      · exact ih _ _ _ _ hmem
    · exact ih _ _ _ _ h
    · simp at h

theorem foldl_addRecord_store :
    ∀ (recs : List ((List Char × List Char) × List (List Char)))
      (o0 : List (List Char × List Char))
      (s0 : List ((List Char × List Char) × List (List Char))),
      (recs.foldl addRecord (o0, s0)).2 = s0 ++ recs := by
  intro recs
  induction recs with
  | nil => intro o0 s0; simp
  | cons r tl ih =>
    intro o0 s0
    rw [List.foldl_cons, addRecord]
    rw [ih]
    simp

theorem foldl_addRecord_order :
    ∀ (recs : List ((List Char × List Char) × List (List Char)))
      (o0 seen : List (List Char × List Char))
      (s0 : List ((List Char × List Char) × List (List Char))),
      (∀ x, x ∈ seen ↔ x ∈ s0.map Prod.fst) →
      (recs.foldl addRecord (o0, s0)).1 = o0 ++ dedupFirstGo seen (recs.map Prod.fst) := by
  intro recs
  induction recs with
  | nil => intro o0 seen s0 _; simp [dedupFirstGo]
  | cons r tl ih =>
    intro o0 seen s0 hseen
    rw [List.foldl_cons, addRecord]
    rcases hin : (dictLookup s0 r.1).isSome with _ | _
    · rw [if_neg (show ¬ (false = true) by simp)]
      have hnot : r.1 ∉ seen := by
        intro hx
        have : (dictLookup s0 r.1).isSome = true :=
          (dictLookup_isSome_iff r.1 s0).mpr ((hseen r.1).mp hx)
        rw [hin] at this
        exact Bool.noConfusion this
      rw [List.map_cons, dedupFirstGo, if_neg hnot]
      rw [ih (o0 ++ [r.1]) (r.1 :: seen) (s0 ++ [r])
        (fun x => by
          simp only [List.mem_cons, List.map_append, List.mem_append, hseen x,
            List.map_cons, List.map_nil, List.mem_singleton]
          tauto)]
      simp [List.append_assoc]
    · rw [if_pos (show (true = true) from rfl)]
      have hmem : r.1 ∈ seen :=
        (hseen r.1).mpr ((dictLookup_isSome_iff r.1 s0).mp hin)
      rw [List.map_cons, dedupFirstGo, if_pos hmem]
      exact ih o0 seen (s0 ++ [r])
        (fun x => by
          simp only [List.map_append, List.mem_append, hseen x, List.map_cons,
            List.map_nil, List.mem_singleton]
          constructor
          · intro hx; exact Or.inl hx
          · rintro (hx | rfl)
            · exact hx
            · exact (dictLookup_isSome_iff r.1 s0).mp hin)

/-- C8: the record-union merger processes ancestor, mainline, proposed records
in order; the output order is the first-occurrence order of the keys, the
stored lines for a key are those of its last occurrence (so proposed
overwrites mainline overwrites ancestor), and the merged text is the
concatenation of the stored records in that order. -/
theorem C8_record_union (mtxt btxt htxt : Option (List Char)) :
    (((parse_info_blocks (some (mtxt.getD [])) ++ parse_info_blocks (some (btxt.getD [])) ++
        parse_info_blocks (some (htxt.getD []))).foldl addRecord ([], [])).2 =
      parse_info_blocks (some (mtxt.getD [])) ++ parse_info_blocks (some (btxt.getD [])) ++
        parse_info_blocks (some (htxt.getD []))) ∧
    (((parse_info_blocks (some (mtxt.getD [])) ++ parse_info_blocks (some (btxt.getD [])) ++
        parse_info_blocks (some (htxt.getD []))).foldl addRecord ([], [])).1 =
      dedupFirst ((parse_info_blocks (some (mtxt.getD [])) ++
        parse_info_blocks (some (btxt.getD [])) ++
        parse_info_blocks (some (htxt.getD []))).map Prod.fst)) ∧
    (∀ k, dictLookup ((parse_info_blocks (some (mtxt.getD [])) ++
        parse_info_blocks (some (btxt.getD [])) ++
        parse_info_blocks (some (htxt.getD []))).foldl addRecord ([], [])).2 k =
      match dictLookup (parse_info_blocks (some (htxt.getD []))) k with
      | some v => some v
      | none =>
        match dictLookup (parse_info_blocks (some (btxt.getD []))) k with
        | some v => some v
        | none => dictLookup (parse_info_blocks (some (mtxt.getD []))) k) ∧
    merge_fp_info_3way mtxt btxt htxt =
      joinSep "\n".data
        (((parse_info_blocks (some (mtxt.getD [])) ++ parse_info_blocks (some (btxt.getD [])) ++
          parse_info_blocks (some (htxt.getD []))).foldl addRecord ([], [])).1.foldl
          (fun acc k => acc ++ (dictLookup ((parse_info_blocks (some (mtxt.getD [])) ++
            parse_info_blocks (some (btxt.getD [])) ++
            parse_info_blocks (some (htxt.getD []))).foldl addRecord ([], [])).2 k).getD []) []) ++
        "\n".data := by
  refine ⟨?_, ?_, ?_, rfl⟩
  · rw [foldl_addRecord_store]
    simp
  · rw [foldl_addRecord_order _ [] [] [] (by simp)]
    simp [dedupFirst]
  · intro k
    rw [foldl_addRecord_store]
    rw [List.nil_append, dictLookup_append, dictLookup_append]
    cases dictLookup (parse_info_blocks (some (htxt.getD []))) k <;>
      cases dictLookup (parse_info_blocks (some (btxt.getD []))) k <;> rfl

/-- C9 evaluated at the failing input: the final record of `"A\nB\nc c"` is
`["A","B"]`, dropping the document's last line `"c c"`, and the merged cache
output loses that line. -/
theorem C9_last_line_dropped :
    parse_info_blocks (some "A\nB\nc c".data) =
      [(("A".data, "B".data), ["A".data, "B".data])] ∧
    merge_fp_info_3way (some "A\nB\nc c".data) (some "A\nB\nc c".data)
      (some "A\nB\nc c".data) = "A\nB\n".data :=
  ⟨by decide, by decide⟩

/-- C10: a line whose stripped text begins with `http` in any letter case is
never a header candidate (even a non-URL such as `httpd`), so no record key's
category or name component begins with `http`. -/
theorem C10_http_exclusion (line t cat fpn : List Char) (ls : List (List Char)) :
    (((pyStrip line).map Char.toLower).take 4 = "http".data → is_category_line line = false) ∧
    (((cat, fpn), ls) ∈ parse_info_blocks (some t) →
      ¬ (cat.map Char.toLower).take 4 = "http".data ∧
      ¬ (fpn.map Char.toLower).take 4 = "http".data) := by
  have hmain : ∀ l : List Char, ((pyStrip l).map Char.toLower).take 4 = "http".data →
      is_category_line l = false := by
    intro l hpre
    rw [is_category_line]
    dsimp only
    split_ifs with e1 e2
    · rfl
    · rfl
    · rfl
  refine ⟨hmain line, ?_⟩
  intro hmem
  rw [parse_info_blocks] at hmem
  obtain ⟨i', hc1, hc2, hcat, hfpn⟩ := parseInfoAux_header (splitLines t) _ _ cat fpn ls hmem
  constructor
  · intro hpre
    rw [hcat] at hpre
    have hf := hmain _ hpre
    rw [hf] at hc1
    exact Bool.noConfusion hc1
  · intro hpre
    rw [hfpn] at hpre
    have hf := hmain _ hpre
    rw [hf] at hc2
    exact Bool.noConfusion hc2

/-- C10 witness: `httpd` consists only of identifier characters and is not a
URL, yet is rejected, and a concrete record's key components are http-free. -/
theorem C10_witness :
    ((pyStrip "httpd".data).map Char.toLower).take 4 = "http".data ∧
    is_category_line "httpd".data = false ∧
    (("Cat".data, "Name".data), ["Cat".data, "Name".data]) ∈
      parse_info_blocks (some "Cat\nName\nx x".data) ∧
    (¬ ("Cat".data.map Char.toLower).take 4 = "http".data ∧
      ¬ ("Name".data.map Char.toLower).take 4 = "http".data) :=
  ⟨by decide,
    (C10_http_exclusion "httpd".data "Cat\nName\nx x".data "Cat".data "Name".data
      ["Cat".data, "Name".data]).1 (by decide),
    by decide,
    (C10_http_exclusion "httpd".data "Cat\nName\nx x".data "Cat".data "Name".data
      ["Cat".data, "Name".data]).2 (by decide)⟩

/-- C4 counterexample: the claim that two different no-identifier block texts
always get different identities is false.  The identity of such a block is its
160-bit SHA-1 digest, so the identity map cannot be injective on the
infinitely many all-letter texts (which contain no parenthesis, hence no
uuid field); the negation of the claimed distinctness follows. -/
theorem C4_counterexample :
    ¬ (∀ b1 b2 : List Char, (¬ ∃ i t, uuidFieldAt (b1.drop i) t) →
      (¬ ∃ i t, uuidFieldAt (b2.drop i) t) → b1 ≠ b2 → resolveId b1 ≠ resolveId b2) := by
  intro H
  obtain ⟨m, n, hmn, hf⟩ :=
    Finite.exists_ne_map_eq_of_infinite
      (fun j : Nat =>
        (⟨sha1Nat (utf8Bytes (List.replicate (j + 1) 'a')), sha1Nat_lt _⟩ : Fin (2 ^ 160)))
  have hnof : ∀ k : Nat, ¬ ∃ i t, uuidFieldAt ((List.replicate (k + 1) 'a').drop i) t := by
    rintro k ⟨i, t, hf'⟩
    have hp := uuidFieldAt_has_paren _ i t hf'
    have := List.eq_of_mem_replicate hp
    exact absurd this (by decide)
  have hne : List.replicate (m + 1) 'a' ≠ List.replicate (n + 1) 'a' := by
    intro he
    have hL := congrArg List.length he
    simp only [List.length_replicate] at hL
    omega
  have hnone : ∀ k : Nat, findUuidTok (List.replicate (k + 1) 'a') = none := by
    intro k
    rcases hq : findUuidTok (List.replicate (k + 1) 'a') with _ | t
    · rfl
    · obtain ⟨i, hf', _⟩ := findUuidTok_sound _ t hq
      exact absurd ⟨i, t, hf'⟩ (hnof k)
  have hdig : sha1Nat (utf8Bytes (List.replicate (m + 1) 'a')) =
      sha1Nat (utf8Bytes (List.replicate (n + 1) 'a')) := congrArg Fin.val hf
  have hres : resolveId (List.replicate (m + 1) 'a') = resolveId (List.replicate (n + 1) 'a') := by
    rw [resolveId, hnone m, resolveId, hnone n]
    dsimp only
    rw [sha1Hex, sha1Hex, hdig]
  exact H _ _ (hnof m) (hnof n) hne hres

/-- C4 (amended): the resolver returns the leftmost well-formed uuid field's
token lowercased when one exists — so blocks whose tokens agree up to letter
case share an identity regardless of other content — and a block with no
field gets the SHA-1 hex digest of its exact raw text, so two such blocks'
identities differ whenever their digests differ (full injectivity on distinct
texts is impossible for a finite-range digest; see the counterexample). -/
theorem C4_identity_amended (b b1 b2 : List Char) :
    (∀ tok, findUuidTok b = some tok →
      resolveId b = tok.map Char.toLower ∧
      ∃ i, uuidFieldAt (b.drop i) tok ∧ ∀ j t', j < i → ¬ uuidFieldAt (b.drop j) t') ∧
    ((∃ i t, uuidFieldAt (b.drop i) t) →
      ∃ t, findUuidTok b = some t ∧ resolveId b = t.map Char.toLower) ∧
    (∀ tok1 tok2, findUuidTok b1 = some tok1 → findUuidTok b2 = some tok2 →
      tok1.map Char.toLower = tok2.map Char.toLower → resolveId b1 = resolveId b2) ∧
    (findUuidTok b1 = none → resolveId b1 = sha1Hex (utf8Bytes b1)) ∧
    (findUuidTok b1 = none → findUuidTok b2 = none →
      sha1Hex (utf8Bytes b1) ≠ sha1Hex (utf8Bytes b2) → resolveId b1 ≠ resolveId b2) := by
  refine ⟨?_, ?_, ?_, ?_, ?_⟩
  · intro tok h
    exact ⟨by rw [resolveId, h], findUuidTok_sound b tok h⟩
  · rintro ⟨i, t, hf⟩
    have hs := findUuidTok_complete b i t hf
    rcases hft : findUuidTok b with _ | t'
    · rw [hft] at hs
      exact absurd hs (by simp)
    · exact ⟨t', rfl, by rw [resolveId, hft]⟩
  · intro tok1 tok2 h1 h2 heq
    rw [resolveId, h1, resolveId, h2]
    dsimp only
    exact heq
  · intro h1
    rw [resolveId, h1]
  · intro h1 h2 hne
    rw [resolveId, h1, resolveId, h2]
    dsimp only
    exact hne

/-- C4 witness: concrete blocks exercising the uuid path (with case
normalization and leftmost-field characterization) and the digest path. -/
theorem C4_witness :
    findUuidTok "(wire (uuid AABBccdd) q)".data = some "AABBccdd".data ∧
    (resolveId "(wire (uuid AABBccdd) q)".data = "AABBccdd".data.map Char.toLower ∧
      ∃ i, uuidFieldAt ("(wire (uuid AABBccdd) q)".data.drop i) "AABBccdd".data ∧
        ∀ j t', j < i → ¬ uuidFieldAt ("(wire (uuid AABBccdd) q)".data.drop j) t') ∧
    (∃ t, findUuidTok "(wire (uuid AABBccdd) zz)".data = some t ∧
      resolveId "(wire (uuid AABBccdd) zz)".data = t.map Char.toLower) ∧
    resolveId "(wire (uuid aabbCCDD) one)".data = resolveId "(wire (uuid AABBccdd) two)".data ∧
    resolveId "x".data = sha1Hex (utf8Bytes "x".data) ∧
    sha1Hex (utf8Bytes "x".data) ≠ sha1Hex (utf8Bytes "y".data) ∧
    resolveId "x".data ≠ resolveId "y".data :=
  ⟨by decide,
    (C4_identity_amended "(wire (uuid AABBccdd) q)".data [] []).1 "AABBccdd".data (by decide),
    (C4_identity_amended "(wire (uuid AABBccdd) zz)".data [] []).2.1
      ⟨6, "AABBccdd".data, [' '], " zz)".data, by decide, by decide, by decide, by decide,
        by decide⟩,
    (C4_identity_amended [] "(wire (uuid aabbCCDD) one)".data
      "(wire (uuid AABBccdd) two)".data).2.2.1 "aabbCCDD".data "AABBccdd".data (by decide)
      (by decide) (by decide),
    (C4_identity_amended [] "x".data "y".data).2.2.2.1 (by decide),
    by decide,
    (C4_identity_amended [] "x".data "y".data).2.2.2.2 (by decide) (by decide) (by decide)⟩

theorem countP_eq_one_of_nodup {α : Type} [DecidableEq α] :
    ∀ (l : List α) (k : α), l.Nodup → k ∈ l → l.countP (fun x => decide (x = k)) = 1 := by
  intro l
  induction l with
  | nil => intro k _ h; simp at h
  | cons a tl ih =>
    intro k hnd hmem
    rw [List.countP_cons]
    rcases List.mem_cons.mp hmem with rfl | h2
    · have hz : tl.countP (fun x => decide (x = k)) = 0 := by
        rw [List.countP_eq_zero]
        intro x hx
        simp only [decide_eq_true_eq]
        intro heq
        exact (List.nodup_cons.mp hnd).1 (heq ▸ hx)
      rw [hz]
      simp
    · rw [ih k (List.Nodup.of_cons hnd) h2]
      have hak : ¬ (a = k) := fun heq => (List.nodup_cons.mp hnd).1 (heq ▸ h2)
      simp [hak]

/-- C5: a kept key with no position in the mainline document occurs exactly
once among the orphan keys, its resolved content is in the orphan block list,
and the output ends with the orphans joined by blank lines immediately before
the final closing delimiter. -/
theorem C5_orphan_placement (bt : Option (List Char)) (keep : List ObjKey)
    (repl : ObjKey → Option (List Char)) (k : ObjKey) (blk : List Char)
    (hnd : keep.Nodup) (hk : k ∈ keep) (hp : k ∉ presentKeysOf bt keep repl)
    (hr : repl k = some blk) :
    (keep.filter (fun x => decide (x ∉ presentKeysOf bt keep repl))).countP
      (fun x => decide (x = k)) = 1 ∧
    blk ∈ missingOf bt keep repl ∧
    missingOf bt keep repl ≠ [] ∧
    ∃ core, rebuild_from bt keep repl =
      core ++ '\n' :: (joinSep "\n\n".data (missingOf bt keep repl) ++ "\n)".data) := by
  have hkf : k ∈ keep.filter (fun x => decide (x ∉ presentKeysOf bt keep repl)) :=
    List.mem_filter.mpr ⟨hk, by simp [hp]⟩
  have hmem : blk ∈ missingOf bt keep repl := by
    rw [missingOf]
    exact List.mem_filterMap.mpr ⟨k, hkf, hr⟩
  have hne : missingOf bt keep repl ≠ [] := List.ne_nil_of_mem hmem
  refine ⟨?_, hmem, hne, ?_⟩
  · exact countP_eq_one_of_nodup _ k (hnd.filter _) hkf
  · refine ⟨(if (pyRstrip (rebuildJoined bt keep repl)).getLast? = some ')' then
      (pyRstrip (rebuildJoined bt keep repl)).dropLast
      else pyRstrip (rebuildJoined bt keep repl)), ?_⟩
    rw [rebuild_from]
    rw [if_neg (by simp [List.isEmpty_iff, hne])]

/-- C5 witness: a kept wire key absent from a mainline document that has no
recognized blocks is appended as an orphan. -/
theorem C5_witness :
    [("wire".data, "aaaabbbb".data)].Nodup ∧
    ("wire".data, "aaaabbbb".data) ∉
      presentKeysOf (some "(kicad_sch )".data) [("wire".data, "aaaabbbb".data)]
        (fun k => if k = ("wire".data, "aaaabbbb".data) then
          some "(wire (uuid aaaabbbb) 1)".data else none) ∧
    ((([("wire".data, "aaaabbbb".data)].filter (fun x => decide (x ∉
        presentKeysOf (some "(kicad_sch )".data) [("wire".data, "aaaabbbb".data)]
          (fun k => if k = ("wire".data, "aaaabbbb".data) then
            some "(wire (uuid aaaabbbb) 1)".data else none)))).countP
        (fun x => decide (x = ("wire".data, "aaaabbbb".data))) = 1) ∧
      "(wire (uuid aaaabbbb) 1)".data ∈
        missingOf (some "(kicad_sch )".data) [("wire".data, "aaaabbbb".data)]
          (fun k => if k = ("wire".data, "aaaabbbb".data) then
            some "(wire (uuid aaaabbbb) 1)".data else none) ∧
      missingOf (some "(kicad_sch )".data) [("wire".data, "aaaabbbb".data)]
        (fun k => if k = ("wire".data, "aaaabbbb".data) then
          some "(wire (uuid aaaabbbb) 1)".data else none) ≠ [] ∧
      ∃ core, rebuild_from (some "(kicad_sch )".data) [("wire".data, "aaaabbbb".data)]
        (fun k => if k = ("wire".data, "aaaabbbb".data) then
          some "(wire (uuid aaaabbbb) 1)".data else none) =
        core ++ '\n' :: (joinSep "\n\n".data
          (missingOf (some "(kicad_sch )".data) [("wire".data, "aaaabbbb".data)]
            (fun k => if k = ("wire".data, "aaaabbbb".data) then
              some "(wire (uuid aaaabbbb) 1)".data else none)) ++ "\n)".data)) :=
  ⟨by decide, by decide,
    C5_orphan_placement (some "(kicad_sch )".data) [("wire".data, "aaaabbbb".data)]
      (fun k => if k = ("wire".data, "aaaabbbb".data) then
        some "(wire (uuid aaaabbbb) 1)".data else none)
      ("wire".data, "aaaabbbb".data) "(wire (uuid aaaabbbb) 1)".data
      (by decide) (by decide) (by decide) (by decide)⟩

/-- C6: when the scan stops at a failed delimiter match (unbalanced opening
parenthesis or unterminated string) at position `p`, every produced block ends
at or before `p`, the joined rebuild output keeps all text from `p` onward as
a verbatim suffix, and (when there are no orphans) the final output is just
that joined text with trailing whitespace stripped. -/
theorem C6_malformed_trailing (s : List Char) (keep : List ObjKey)
    (repl : ObjKey → Option (List Char)) (p : Nat) (hfail : scanFail s = some p) :
    (∀ b ∈ findBlocksWithPos s, b.endPos ≤ p) ∧
    (∃ pre, rebuildJoined (some s) keep repl = pre ++ s.drop p) ∧
    (missingOf (some s) keep repl = [] →
      rebuild_from (some s) keep repl = pyRstrip (rebuildJoined (some s) keep repl)) := by
  rw [scanFail] at hfail
  have hb : ∀ b ∈ findBlocksWithPos s, b.endPos ≤ p :=
    scanAux_endPos_le_fail s (s.length + 1) 0 p hfail
  refine ⟨hb, ?_, ?_⟩
  · have hlast : (rebuildFold (some s) keep repl).2.1 ≤ p := by
      rw [rebuildFold]
      exact foldl_rebuildStep_last_le _ keep repl p _ [] 0 [] (Nat.zero_le p) hb
    refine ⟨(rebuildFold (some s) keep repl).1.flatten ++
      pySlice s (rebuildFold (some s) keep repl).2.1 p, ?_⟩
    rw [rebuildJoined_eq, List.append_assoc, pySlice_append_drop s _ p hlast]
    rfl
  · intro hm
    rw [rebuild_from, hm]
    rfl

/-- C6 witness: a document whose trailing `(foo` never closes; the scan fails
at position 24 and the text from there on survives in the output. -/
theorem C6_witness :
    scanFail "(wire (uuid aaaabbbb) x)(foo".data = some 24 ∧
    ((∀ b ∈ findBlocksWithPos "(wire (uuid aaaabbbb) x)(foo".data, b.endPos ≤ 24) ∧
      (∃ pre, rebuildJoined (some "(wire (uuid aaaabbbb) x)(foo".data) [] (fun _ => none) =
        pre ++ "(wire (uuid aaaabbbb) x)(foo".data.drop 24) ∧
      (missingOf (some "(wire (uuid aaaabbbb) x)(foo".data) [] (fun _ => none) = [] →
        rebuild_from (some "(wire (uuid aaaabbbb) x)(foo".data) [] (fun _ => none) =
          pyRstrip (rebuildJoined (some "(wire (uuid aaaabbbb) x)(foo".data) []
            (fun _ => none)))) :=
  ⟨by decide,
    C6_malformed_trailing "(wire (uuid aaaabbbb) x)(foo".data [] (fun _ => none) 24 (by decide)⟩

/-- C3 counterexample: a document with two blocks sharing a uuid key but
differing in content does not round-trip: the snapshot dictionary keeps only
the last block for the key, and the rebuilder replaces both occurrences with
it, so reconciling the document against itself changes the first block. -/
theorem C3_counterexample :
    merge_kicad_3way (some "(wire (uuid aaaabbbb) x)\n(wire (uuid aaaabbbb) y)".data)
      (some "(wire (uuid aaaabbbb) x)\n(wire (uuid aaaabbbb) y)".data)
      (some "(wire (uuid aaaabbbb) x)\n(wire (uuid aaaabbbb) y)".data)
      "prefer-head" false ≠
      pyRstrip "(wire (uuid aaaabbbb) x)\n(wire (uuid aaaabbbb) y)".data := by decide

theorem chooseOverlap_self (mode : String) (v : List Char) : chooseOverlap mode v v = v := by
  rw [chooseOverlap]
  split_ifs <;> rfl

/-- C3 (amended): reconciling a document with itself (ancestor = mainline =
proposed, byte-identical) yields the text with trailing whitespace stripped,
for every overlap mode and allow-deletions setting, provided the parsed
blocks carry pairwise-distinct ObjectKeys (the counterexample shows the claim
fails when two blocks share a key). -/
theorem C3_idempotence_amended (t : List Char) (mode : String) (ad : Bool)
    (hnd : ((parse_top_blocks (some t)).map (fun r => (r.1, r.2.1))).Nodup) :
    merge_kicad_3way (some t) (some t) (some t) mode ad = pyRstrip t := by
  have hkeys : (snapshotOf (some t)).map Prod.fst =
      (parse_top_blocks (some t)).map (fun r => (r.1, r.2.1)) := by
    rw [snapshotOf, List.map_map]
    rfl
  have hnd' : ((snapshotOf (some t)).map Prod.fst).Nodup := by
    rw [hkeys]; exact hnd
  have hsnap : snapshotOf (some t) =
      (findBlocksWithPos t).map (fun b => ((b.head, b.uid), b.blk)) := by
    rw [snapshotOf, parse_top_blocks, List.map_map]
    rfl
  have hbkeys : (snapshotOf (some t)).map Prod.fst =
      (findBlocksWithPos t).map (fun b => (b.head, b.uid)) := by
    rw [hsnap, List.map_map]
    rfl
  have hunion : unionKeysOf (snapshotOf (some t)) (snapshotOf (some t)) (snapshotOf (some t)) =
      (snapshotOf (some t)).map Prod.fst := by
    rw [unionKeysOf, dedupFirst_eq_self _ hnd', dedupFirst,
      dedupFirstGo_append_absorb _ _ _ (fun x hx => Or.inl (List.mem_append_left _ hx)),
      dedupFirstGo_append_absorb _ _ _ (fun x hx => Or.inl hx)]
    exact dedupFirstGo_eq_self _ [] hnd' (by simp)
  have hlook : ∀ k ∈ (snapshotOf (some t)).map Prod.fst,
      ∃ v, dictLookup (snapshotOf (some t)) k = some v := by
    intro k hk
    exact Option.isSome_iff_exists.mp ((dictLookup_isSome_iff k (snapshotOf (some t))).mpr hk)
  have hkeep : mergeKeepKeys (some t) (some t) (some t) mode ad =
      (snapshotOf (some t)).map Prod.fst := by
    have h1 : mergeKeepKeys (some t) (some t) (some t) mode ad =
        (unionKeysOf (snapshotOf (some t)) (snapshotOf (some t))
          (snapshotOf (some t))).filter (fun k =>
            (decideKey mode ad (dictLookup (snapshotOf (some t)) k)
              (dictLookup (snapshotOf (some t)) k)
              (dictLookup (snapshotOf (some t)) k)).isSome) := rfl
    rw [h1, hunion]
    refine List.filter_eq_self.mpr ?_
    intro k hk
    obtain ⟨v, hv⟩ := hlook k hk
    rw [hv]
    simp [decideKey]
  have hrepl : ∀ b ∈ findBlocksWithPos t,
      mergeReplaceMap (some t) (some t) (some t) mode ad (b.head, b.uid) = some b.blk := by
    intro b hb
    have hkmem : (b.head, b.uid) ∈ (snapshotOf (some t)).map Prod.fst := by
      rw [hbkeys]
      exact List.mem_map_of_mem _ hb
    have hmemsnap : ((b.head, b.uid), b.blk) ∈ snapshotOf (some t) := by
      rw [hsnap]
      exact List.mem_map_of_mem _ hb
    have hv : dictLookup (snapshotOf (some t)) (b.head, b.uid) = some b.blk :=
      dictLookup_eq_some_of_nodup _ _ _ hnd' hmemsnap
    rw [mergeReplaceMap_eq _ _ _ _ _ _ (by rw [hunion]; exact hkmem), hv]
    simp [decideKey, chooseOverlap_self]
  have hbase : baseOf (some t) = t := rfl
  have hseg : segChain t 0 (findBlocksWithPos t) := scanAux_segChain t (t.length + 1) 0
  have hcond : ∀ b ∈ findBlocksWithPos t,
      ((b.head, b.uid) ∈ (snapshotOf (some t)).map Prod.fst) ∧
      ((mergeReplaceMap (some t) (some t) (some t) mode ad) (b.head, b.uid)).getD b.blk =
        b.blk := by
    intro b hb
    refine ⟨by rw [hbkeys]; exact List.mem_map_of_mem _ hb, ?_⟩
    rw [hrepl b hb]
    rfl
  have hjoin : rebuildJoined (some t) ((snapshotOf (some t)).map Prod.fst)
      (mergeReplaceMap (some t) (some t) (some t) mode ad) = t := by
    rw [rebuildJoined_eq, rebuildFold]
    simp only [hbase]
    have hid := foldl_rebuildStep_id t ((snapshotOf (some t)).map Prod.fst)
      (mergeReplaceMap (some t) (some t) (some t) mode ad)
      (findBlocksWithPos t) [] 0 [] hseg hcond
    simpa using hid
  have hpres : presentKeysOf (some t) ((snapshotOf (some t)).map Prod.fst)
      (mergeReplaceMap (some t) (some t) (some t) mode ad) =
      ((findBlocksWithPos t).map (fun b => (b.head, b.uid))).filter
        (fun k => decide (k ∈ (snapshotOf (some t)).map Prod.fst)) := by
    rw [presentKeysOf, rebuildFold]
    simp only [hbase]
    rw [foldl_rebuildStep_present]
    simp
  have hmiss : missingOf (some t) ((snapshotOf (some t)).map Prod.fst)
      (mergeReplaceMap (some t) (some t) (some t) mode ad) = [] := by
    rw [missingOf]
    have hfil : ((snapshotOf (some t)).map Prod.fst).filter
        (fun k => decide (k ∉ presentKeysOf (some t) ((snapshotOf (some t)).map Prod.fst)
          (mergeReplaceMap (some t) (some t) (some t) mode ad))) = [] := by
      refine List.filter_eq_nil_iff.mpr ?_
      intro k hk
      have hkp : k ∈ presentKeysOf (some t) ((snapshotOf (some t)).map Prod.fst)
          (mergeReplaceMap (some t) (some t) (some t) mode ad) := by
        rw [hpres]
        refine List.mem_filter.mpr ⟨?_, by simp [hk]⟩
        rw [← hbkeys]
        exact hk
      simp [hkp]
    rw [hfil]
    rfl
  have hfinal : merge_kicad_3way (some t) (some t) (some t) mode ad =
      rebuild_from (some t) ((snapshotOf (some t)).map Prod.fst)
        (mergeReplaceMap (some t) (some t) (some t) mode ad) := by
    rw [merge_kicad_3way, hkeep]
  rw [hfinal, rebuild_from, hmiss]
  simp only [List.isEmpty_nil, if_true]
  rw [hjoin]

/-- C3 witness: a single-block document round-trips through the full
pipeline in prefer-head mode. -/
theorem C3_witness :
    ((parse_top_blocks (some "(wire (uuid aaaabbbb) x)".data)).map
      (fun r => (r.1, r.2.1))).Nodup ∧
    merge_kicad_3way (some "(wire (uuid aaaabbbb) x)".data)
      (some "(wire (uuid aaaabbbb) x)".data) (some "(wire (uuid aaaabbbb) x)".data)
      "prefer-head" false = pyRstrip "(wire (uuid aaaabbbb) x)".data :=
  ⟨by decide,
    C3_idempotence_amended "(wire (uuid aaaabbbb) x)".data "prefer-head" false (by decide)⟩

/-! ### Validation examples: the embedding evaluated on concrete inputs,
including the standard SHA-1 test vectors. -/

example : sha1Hex (utf8Bytes "abc".data) = "a9993e364706816aba3e25717850c26c9cd0d89d".data := by decide
example : sha1Hex (utf8Bytes []) = "da39a3ee5e6b4b0d3255bfef95601890afd80709".data := by decide
example : findUuidTok "(wire (uuid AABBccdd) x)".data = some "AABBccdd".data := by decide
example : resolveId "(wire (uuid AABBccdd) x)".data = "aabbccdd".data := by decide
example : splitLines "A\nB\nc c".data = ["A".data, "B".data, "c c".data] := by decide
example : parse_top_blocks (some "(wire (uuid AABBccdd) x)".data) =
    [("wire".data, "aabbccdd".data, "(wire (uuid AABBccdd) x)".data)] := by decide
example : parse_info_blocks (some "A\nB\nc c".data) =
    [(("A".data, "B".data), ["A".data, "B".data])] := by decide
example : merge_fp_info_3way (some "A\nB\nc c".data) (some "A\nB\nc c".data)
    (some "A\nB\nc c".data) = "A\nB\n".data := by decide
example :
    merge_kicad_3way (some "(wire (uuid aaaabbbb) x)\n(wire (uuid aaaabbbb) y)".data)
        (some "(wire (uuid aaaabbbb) x)\n(wire (uuid aaaabbbb) y)".data)
        (some "(wire (uuid aaaabbbb) x)\n(wire (uuid aaaabbbb) y)".data)
        "prefer-head" false =
      "(wire (uuid aaaabbbb) y)\n(wire (uuid aaaabbbb) y)".data := by decide
example :
    merge_kicad_3way (some "(wire (uuid aaaabbbb) x)".data)
        (some "(wire (uuid aaaabbbb) x)".data) (some "(wire (uuid aaaabbbb) x)".data)
        "prefer-head" false = "(wire (uuid aaaabbbb) x)".data := by decide
example : scanFail "(wire (uuid aaaabbbb) x)(foo".data = some 24 := by decide
example : rebuild_from none [("wire".data, "aaaabbbb".data)]
    (fun k => if k = ("wire".data, "aaaabbbb".data) then some "(wire (uuid aaaabbbb) 1)".data else none) =
    ("(kicad_sch (version 20211014) (generator merged)".data ++
      "\n\n(wire (uuid aaaabbbb) 1)\n)".data) := by decide
